import Mathlib

/-!
Verification of the Kuda bank statement parser (`src/utils.py`).

Modelling conventions (shallow embedding):
* A spreadsheet cell (`Cell`) is `na` (pandas `NaN`/missing), a string, a
  numeric value, or a datetime (the latter only appears after `parse_dates`).
  `cellStr` models Python `str(x)` (`str(nan) = "nan"`).
* Python floats are modelled as exact decimals `Dec` (integer mantissa and a
  base-10 exponent); the claims under study only concern signs and defaults,
  which this abstraction preserves exactly.
* Python string operations are re-implemented structurally over `List Char`
  (`lowerStr` = `str.lower` restricted to ASCII as in the relevant inputs,
  `trimStr` = `str.strip`, `containsSeq` = the `in` substring test,
  `joinSp` = `" ".join`), so that every definition evaluates inside the kernel.
* A raw spreadsheet grid (`pd.read_excel(..., header=None)`) is a list of rows
  of cells; pandas yields a rectangular grid, which theorems assume explicitly
  where it matters.
-/

-- ### String primitives (models of the Python string operations used)

/-- Model of Python `str.lower()` per character (ASCII range, matching CPython
on the ASCII inputs handled by the parser). -/
def lowerStr (s : String) : String := ⟨s.data.map Char.toLower⟩

/-- Model of Python `str.strip()`: remove leading and trailing whitespace. -/
def trimStr (s : String) : String :=
  ⟨((s.data.dropWhile Char.isWhitespace).reverse.dropWhile Char.isWhitespace).reverse⟩

/-- Does the character list `s` start with `p`? (helper for the substring test). -/
def startsWithSeq : List Char → List Char → Bool
  | [], _ => true
  | _ :: _, [] => false
  | p :: ps, x :: xs => p = x && startsWithSeq ps xs

/-- Does `s` contain `p` as a contiguous run?  Model of Python `p in s`. -/
def containsSeq : List Char → List Char → Bool
  | p, [] => p.isEmpty
  | p, x :: xs => startsWithSeq p (x :: xs) || containsSeq p xs

/-- Model of the Python substring test `pat in s` on strings. -/
def substrB (pat s : String) : Bool := containsSeq pat.data s.data

/-- Model of Python `" ".join(l)`. -/
def joinSp : List String → String
  | [] => ""
  | [s] => s
  | s :: r :: rest => s ++ " " ++ joinSp (r :: rest)

/-- Numeric value of a list of decimal digit characters (most significant first). -/
def digitsVal (l : List Char) : ℕ := l.foldl (fun a c => a * 10 + (c.toNat - 48)) 0

/-- Decimal digit string of a natural number. -/
def natStr (n : ℕ) : String := ⟨Nat.toDigits 10 n⟩

-- ### Cell values

/-- Result of a successful `datetime.strptime`: the fields of a Python
`datetime` object that the parser can produce. -/
structure PyDateTime where
  year : ℕ
  month : ℕ
  day : ℕ
  hour : ℕ
  minute : ℕ
  second : ℕ
deriving DecidableEq, Repr

/-- Exact decimal number: `man / 10 ^ exp`.  Model of the Python floats the
cleaning code produces (all of which come from decimal digit strings). -/
structure Dec where
  man : ℤ
  exp : ℕ
deriving DecidableEq, Repr

/-- Rational value of a decimal. -/
def Dec.toRat (d : Dec) : ℚ := (d.man : ℚ) / (10 : ℚ) ^ d.exp

/-- A natural number as a decimal `Dec` (integer, exponent 0). -/
def Dec.ofNat (n : ℕ) : Dec := ⟨(n : ℤ), 0⟩

/-- One spreadsheet cell as read by `pd.read_excel(header=None)`:
missing (`NaN`), text, numeric, or (after `parse_dates`) a datetime.
`NaT` produced by `parse_dates` is identified with `na` (both are pandas
missing values; `pd.notna` is false on both). -/
inductive Cell where
  | na : Cell
  | str : String → Cell
  | num : Dec → Cell
  | dt : PyDateTime → Cell
deriving DecidableEq, Repr

/-- Two-digit zero-padded field (for the datetime printable form). -/
def pad2 (n : ℕ) : String := (if n < 10 then "0" else "") ++ natStr n

/-- Printable form of a datetime (`str(datetime)`); included only so that
`cellStr` is total, no theorem depends on its exact shape. -/
def dtRepr (t : PyDateTime) : String :=
  natStr t.year ++ "-" ++ pad2 t.month ++ "-" ++ pad2 t.day ++ " " ++
    pad2 t.hour ++ ":" ++ pad2 t.minute ++ ":" ++ pad2 t.second

/-- Printable form of a decimal (`str(float)`); included only so that
`cellStr` is total, no theorem depends on its exact shape. -/
def decRepr (d : Dec) : String :=
  let a := d.man.natAbs
  let w := a / 10 ^ d.exp
  let f := a % 10 ^ d.exp
  let fd := Nat.toDigits 10 f
  (if d.man < 0 then "-" else "") ++ natStr w ++ "." ++
    (if d.exp = 0 then "0" else ⟨List.replicate (d.exp - fd.length) '0' ++ fd⟩)

/-- Model of Python `str(x)` on a cell (`str(nan)` is `"nan"`). -/
def cellStr : Cell → String
  | Cell.na => "nan"
  | Cell.str s => s
  | Cell.num d => decRepr d
  | Cell.dt t => dtRepr t

/-- Model of `pd.notna`. -/
def notnaB : Cell → Bool
  | Cell.na => false
  | _ => true

/-- Lower-cased text of a cell: `str(x).lower()`. -/
def lowerCellStr (c : Cell) : String := lowerStr (cellStr c)

-- ### Header Locator (utils.py lines 41-95)

/-- Stage 1, positional check (utils.py lines 44-52): with more than 15 rows,
accept row 15 when `'date/time' in str(row_15.iloc[2]).lower()` (note: a
substring test, not an equality test) and the row has more than 2 cells. -/
def posCheck (grid : List (List Cell)) : Option ℕ :=
  if 15 < grid.length then
    if 2 < (grid.getD 15 []).length ∧
        substrB "date/time" (lowerCellStr ((grid.getD 15 []).getD 2 Cell.na)) = true
    then some 15 else none
  else none

/-- One row of the combined exact / co-occurrence scan (utils.py lines 56-73):
`row_str = [str(x).lower() for x in row.values]`, accept the row if some entry
satisfies `x.lower() == 'date/time'`, else if some entry contains `'date'` and
some entry contains `'money'`. -/
def rowHitB (row : List Cell) : Bool :=
  let rowStr := row.map lowerCellStr
  rowStr.any (fun x => lowerStr x = "date/time") ||
    (rowStr.any (fun x => substrB "date" x) && rowStr.any (fun x => substrB "money" x))

/-- Stages 2-3 (utils.py lines 55-73): a single top-to-bottom loop over rows;
both the exact `date/time` test and the date/money co-occurrence test are
checked on each row before moving to the next row. -/
def scanExactOrCooc : List (List Cell) → ℕ → Option ℕ
  | [], _ => none
  | row :: rest, i => if rowHitB row then some i else scanExactOrCooc rest (i + 1)

/-- One row of the loose scan (utils.py lines 78-84):
`row_values = [str(x).lower() for x in row.values if pd.notna(x)]`, accept when
(`'date'` or `'time'` is an element, or `'date/time'` occurs in the joined
text) and (`'money'` or `'balance'` occurs in the joined text). -/
def looseHitB (row : List Cell) : Bool :=
  let rowValues := (row.filter notnaB).map lowerCellStr
  let joined := joinSp rowValues
  (rowValues.contains "date" || rowValues.contains "time" ||
      substrB "date/time" joined) &&
    (substrB "money" joined || substrB "balance" joined)

/-- Stage 4 (utils.py lines 75-84): loose partial-match scan, top to bottom. -/
def scanLoose : List (List Cell) → ℕ → Option ℕ
  | [], _ => none
  | row :: rest, i => if looseHitB row then some i else scanLoose rest (i + 1)

/-- Header Locator (utils.py lines 41-95): positional check, then the combined
exact/co-occurrence loop, then the loose loop; `none` models the
`HeaderNotFound` `ValueError` raised at line 95. -/
def find_header_row (grid : List (List Cell)) : Option ℕ :=
  match posCheck grid with
  | some i => some i
  | none =>
    match scanExactOrCooc grid 0 with
    | some i => some i
    | none => scanLoose grid 0

-- ### Column Mapper (utils.py lines 104-144)

/-- The required columns, lowercase synonym paired with canonical name
(utils.py lines 107-109); the list order is the Python dict iteration order. -/
def requiredColumns : List (String × String) :=
  [("date/time", "Date/Time"), ("money in", "Money In"), ("money out", "Money out"),
   ("category", "Category"), ("to / from", "To / From"), ("description", "Description"),
   ("balance", "Balance")]

/-- The canonical column list `required_columns_list` (utils.py line 235). -/
def requiredColumnsList : List String :=
  ["Date/Time", "Money In", "Money out", "Category", "To / From", "Description", "Balance"]

/-- Python dict assignment `d[k] = v`: update in place when the key is present
(keeping its insertion position), else append. -/
def dictSet (d : List (String × ℕ)) (k : String) (v : ℕ) : List (String × ℕ) :=
  if d.any (fun p => p.1 = k) then d.map (fun p => if p.1 = k then (k, v) else p)
  else d ++ [(k, v)]

/-- Cell text `str(cell).strip().lower()` (utils.py lines 116, 128). -/
def trimLowerCell (c : Cell) : String := lowerStr (trimStr (cellStr c))

/-- Pass 1, exact synonym match (utils.py lines 115-120): for each header cell
in order, if its trimmed lower-cased text equals a synonym, assign
canonical-name to index; a later equal cell overwrites an earlier one. -/
def mapperPass1 (header : List Cell) : List (String × ℕ) :=
  header.enum.foldl (fun d ic =>
    match requiredColumns.find? (fun kv => kv.1 = trimLowerCell ic.2) with
    | some kv => dictSet d kv.2 ic.1
    | none => d) []

/-- Pass 2, substring fallback (utils.py lines 123-132): re-scans every
non-null header cell (mapped or not) and assigns the first synonym contained
in its text, overwriting any existing entry for that synonym. -/
def mapperPass2 (header : List Cell) (d0 : List (String × ℕ)) : List (String × ℕ) :=
  header.enum.foldl (fun d ic =>
    if notnaB ic.2 then
      match requiredColumns.find? (fun kv => substrB kv.1 (trimLowerCell ic.2)) with
      | some kv => dictSet d kv.2 ic.1
      | none => d
    else d) d0

/-- `column_indices` (utils.py lines 112-132): pass 1, then pass 2 when pass 1
mapped fewer than all seven canonical names. -/
def columnIndices (header : List Cell) : List (String × ℕ) :=
  let d := mapperPass1 header
  if d.length < requiredColumns.length then mapperPass2 header d else d

/-- `final_columns` (utils.py lines 135-144): for each position, the canonical
name mapped to it (first dict entry with that index), else `column_<i>`. -/
def finalColumns (d : List (String × ℕ)) (n : ℕ) : List String :=
  (List.range n).map (fun i =>
    match d.find? (fun p => p.2 = i) with
    | some p => p.1
    | none => "column_" ++ natStr i)

-- ### DataFrames and the Table Builder (utils.py lines 97-153, 234-250)

/-- A pandas DataFrame: column labels plus rows of cells. -/
structure DF where
  cols : List String
  rows : List (List Cell)
deriving DecidableEq, Repr

/-- Position of a column label (first occurrence; the frames built by the
parser have unique labels, proved where it matters). -/
def DF.colIdx (df : DF) (c : String) : ℕ := df.cols.findIdx (fun x => x = c)

/-- Column assignment `df[c] = df[c].apply(f)`-style per-cell update. -/
def DF.mapCol (df : DF) (c : String) (f : Cell → Cell) : DF :=
  ⟨df.cols, df.rows.map (fun r => r.set (df.colIdx c) (f (r.getD (df.colIdx c) Cell.na)))⟩

/-- Add each required column that is absent as an all-`NaN` column
(utils.py lines 238-241). -/
def addMissingCols (df : DF) : DF :=
  requiredColumnsList.foldl (fun d c =>
    if d.cols.contains c then d
    else ⟨d.cols ++ [c], d.rows.map (fun r => r ++ [Cell.na])⟩) df

/-- Column selection `df_transactions[required_columns_list]`
(utils.py lines 244-245). -/
def selectRequired (df : DF) : DF :=
  ⟨requiredColumnsList,
   df.rows.map (fun r => requiredColumnsList.map (fun c => r.getD (df.colIdx c) Cell.na))⟩

/-- Table Builder: slice the grid from the header row, name the columns from
the mapper, drop the header row, add missing required columns, and keep
exactly the required columns (utils.py lines 97-153 and 234-245). -/
def buildTable (grid : List (List Cell)) (h : ℕ) : DF :=
  let header := grid.getD h []
  let d := columnIndices header
  let fcols := finalColumns d header.length
  let dataRows := grid.drop (h + 1)
  selectRequired (addMissingCols ⟨fcols, dataRows⟩)

-- ### Metadata Extractor (utils.py lines 156-232)

/-- Is the string non-empty and all decimal digits (`str.isdigit`)? -/
def isDigitStr (s : String) : Bool := !s.isEmpty && s.data.all Char.isDigit

/-- The joined lower-cased text of the non-null cells of a row:
`' '.join([str(x) for x in row.values if pd.notna(x)]).lower()`
(utils.py lines 166-167). -/
def rowTextLower (row : List Cell) : String :=
  lowerStr (joinSp ((row.filter notnaB).map cellStr))

/-- Does this cell trigger the account-number scan (utils.py line 173)? -/
def accTrigCell (c : Cell) : Bool := notnaB c && substrB "account" (lowerCellStr c)

/-- Scan one row for an account number (utils.py lines 172-181): at each
triggering cell, take the next cell when non-null, else the previous cell
when non-null and all digits; the first cell yielding a value stops the scan
(the `break`), and a row yielding nothing keeps the accumulator. -/
def accRowScan (acc : Option String) (row : List Cell) : Option String :=
  match row.enum.findSome? (fun jc =>
    if accTrigCell jc.2 then
      if jc.1 + 1 < row.length ∧ notnaB (row.getD (jc.1 + 1) Cell.na) = true then
        some (cellStr (row.getD (jc.1 + 1) Cell.na))
      else if 1 ≤ jc.1 ∧ notnaB (row.getD (jc.1 - 1) Cell.na) = true ∧
          isDigitStr (cellStr (row.getD (jc.1 - 1) Cell.na)) = true then
        some (cellStr (row.getD (jc.1 - 1) Cell.na))
      else none
    else none) with
  | some v => some v
  | none => acc

/-- Does a cell look money-ish to the closing-balance scan (utils.py lines
189-192): contains the naira sign, or contains the letter `n` once
lower-cased, or is all digits after removing commas and dots? -/
def balMoneyishCell (c : Cell) : Bool :=
  substrB "₦" (cellStr c) || substrB "n" (lowerCellStr c) ||
    isDigitStr ⟨(cellStr c).data.filter (fun ch => ch ≠ ',' ∧ ch ≠ '.')⟩

/-- Does this cell trigger the closing-balance scan (utils.py line 187)? -/
def balTrigCell (c : Cell) : Bool :=
  notnaB c && (substrB "balance" (lowerCellStr c) || substrB "closing" (lowerCellStr c))

/-- Walk `fuel` cells starting at index `k` and return the text of the first
non-null money-ish cell (the inner `for k in range(j+1, min(j+3, len(row)))`
loop with its `break`, utils.py lines 188-195). -/
def windowFirstAux (row : List Cell) : ℕ → ℕ → Option String
  | _, 0 => none
  | k, fuel + 1 =>
    if notnaB (row.getD k Cell.na) && balMoneyishCell (row.getD k Cell.na) then
      some (cellStr (row.getD k Cell.na))
    else windowFirstAux row (k + 1) fuel

/-- First money-ish value among the up-to-two cells after index `j`. -/
def windowFirst (row : List Cell) (j : ℕ) : Option String :=
  windowFirstAux row (j + 1) (min (j + 3) row.length - (j + 1))

/-- Scan one row for a closing balance (utils.py lines 186-195): every
triggering cell whose window holds a money-ish value overwrites the
accumulator (only the window loop has a `break`). -/
def balRowScan (acc : Option String) (row : List Cell) : Option String :=
  row.enum.foldl (fun a jc =>
    if balTrigCell jc.2 then
      match windowFirst row jc.1 with
      | some v => some v
      | none => a
    else a) acc

/-- Scan one summary data row for the cell after a cell containing `key`
(utils.py lines 212-224); there is no `break`, so the last hit wins. -/
def summaryRowScan (key : String) (acc : Option String) (row : List Cell) : Option String :=
  row.enum.foldl (fun a kc =>
    if notnaB kc.2 && substrB key (lowerCellStr kc.2) &&
        decide (kc.1 + 1 < row.length) && notnaB (row.getD (kc.1 + 1) Cell.na) then
      some (cellStr (row.getD (kc.1 + 1) Cell.na))
    else a) acc

/-- Scan the up-to-four rows after a `summary` row, strictly below-header rows
only (`range(summary_row + 1, min(summary_row + 5, header_row_idx))`,
utils.py lines 198-224). -/
def summaryBlock (grid : List (List Cell)) (h i : ℕ)
    (acc : Option String × Option String) : Option String × Option String :=
  (List.range' (i + 1) (min (i + 5) h - (i + 1))).foldl (fun a j =>
    let row := grid.getD j []
    let a1 := if substrB "money in" (rowTextLower row) = true then
        (summaryRowScan "money in" a.1 row, a.2) else a
    if substrB "money out" (rowTextLower row) = true then
        (a1.1, summaryRowScan "money out" a1.2 row) else a1) acc

/-- Accumulated metadata (`account_number`, `closing_balance`, `summary_in`,
`summary_out`, utils.py lines 156-159). -/
structure MetaAcc where
  account : Option String
  closing : Option String
  sumIn : Option String
  sumOut : Option String
deriving DecidableEq, Repr

/-- One iteration of the metadata loop over a row above the header
(utils.py lines 162-224). -/
def metaStep (grid : List (List Cell)) (h : ℕ) (m : MetaAcc) (i : ℕ) : MetaAcc :=
  let row := grid.getD i []
  let t := rowTextLower row
  let m1 := if substrB "account" t = true then { m with account := accRowScan m.account row } else m
  let m2 := if substrB "balance" t = true ∨ substrB "closing" t = true then
      { m1 with closing := balRowScan m1.closing row } else m1
  if substrB "summary" t = true then
    let s := summaryBlock grid h i (m2.sumIn, m2.sumOut)
    { m2 with sumIn := s.1, sumOut := s.2 }
  else m2

/-- Metadata extraction over the rows strictly above the header row
(utils.py lines 161-224; the loop breaks at `i >= header_row_idx`). -/
def extractMeta (grid : List (List Cell)) (h : ℕ) : MetaAcc :=
  (List.range (min h grid.length)).foldl (metaStep grid h) ⟨none, none, none, none⟩

-- ### process_kuda_excel result (utils.py lines 6-256)

/-- The parse output: the final table plus the metadata stored in
`df.attrs` (utils.py lines 226-230, 250). -/
structure StatementResult where
  table : DF
  accountNumber : Option String
  closingBalance : Option String
  summaryIn : Option String
  summaryOut : Option String
deriving DecidableEq, Repr

/-- Structural parse failure: the `ValueError` raised at utils.py line 95
when no header row is found (`HeaderNotFound` in the specification). -/
inductive ParseError where
  | headerNotFound : ParseError
deriving DecidableEq, Repr

/-- `process_kuda_excel` on an already-read grid (utils.py lines 39-250): find
the header row or fail, then build the table and extract the metadata. -/
def process_kuda_excel (grid : List (List Cell)) : Except ParseError StatementResult :=
  match find_header_row grid with
  | none => Except.error ParseError.headerNotFound
  | some h =>
    let m := extractMeta grid h
    Except.ok ⟨buildTable grid h, m.account, m.closing, m.sumIn, m.sumOut⟩

/-- Did the parse produce a table? -/
def parseOkB : Except ParseError StatementResult → Bool
  | Except.ok _ => true
  | Except.error _ => false

-- ### Value Normalizer, money (utils.py lines 258-361)

/-- Value replacement `df[col].replace(old, np.nan)` per cell
(utils.py lines 274-275, 304-305, 334-335): exact match only. -/
def replaceCellVal (old : String) (c : Cell) : Cell :=
  if c = Cell.str old then Cell.na else c

/-- Strip every character that is not a digit or a dot:
`re.sub(r'[^\d.]', '', x_str)` (utils.py line 293). -/
def stripNonDigitDot (s : String) : String :=
  ⟨s.data.filter (fun c => c.isDigit || c = '.')⟩

/-- Model of Python `float(s)` on the digit-and-dot strings produced by
`stripNonDigitDot` (the only strings the code feeds it), as an exact decimal;
`none` models `ValueError`.  Accepts digits with at most one dot and at least
one digit, as `float` does on such strings. -/
def pyFloatOfDigits (s : String) : Option Dec :=
  match s.data.splitOn '.' with
  | [a] => if a ≠ [] ∧ a.all Char.isDigit then some ⟨(digitsVal a : ℤ), 0⟩ else none
  | [a, b] =>
    if (a ≠ [] ∨ b ≠ []) ∧ a.all Char.isDigit ∧ b.all Char.isDigit then
      some ⟨(digitsVal (a ++ b) : ℤ), b.length⟩
    else none
  | _ => none

/-- `clean_money_in` (utils.py lines 278-296): missing becomes 0, numeric
passes through unchanged, other values are stringified, stripped to digits
and dots and parsed; empty/`nan` text and parse failures give 0. -/
def clean_money_in (x : Cell) : Dec :=
  match x with
  | Cell.na => Dec.ofNat 0
  | Cell.num d => d
  | _ =>
    let xs := cellStr x
    if trimStr xs = "" ∨ lowerStr xs = "nan" then Dec.ofNat 0
    else match pyFloatOfDigits (stripNonDigitDot xs) with
      | some d => d
      | none => Dec.ofNat 0

/-- `clean_money_out` (utils.py lines 308-326): same body as `clean_money_in`. -/
def clean_money_out (x : Cell) : Dec :=
  match x with
  | Cell.na => Dec.ofNat 0
  | Cell.num d => d
  | _ =>
    let xs := cellStr x
    if trimStr xs = "" ∨ lowerStr xs = "nan" then Dec.ofNat 0
    else match pyFloatOfDigits (stripNonDigitDot xs) with
      | some d => d
      | none => Dec.ofNat 0

/-- `clean_balance` (utils.py lines 338-356): same body as `clean_money_in`. -/
def clean_balance (x : Cell) : Dec :=
  match x with
  | Cell.na => Dec.ofNat 0
  | Cell.num d => d
  | _ =>
    let xs := cellStr x
    if trimStr xs = "" ∨ lowerStr xs = "nan" then Dec.ofNat 0
    else match pyFloatOfDigits (stripNonDigitDot xs) with
      | some d => d
      | none => Dec.ofNat 0

/-- One money-column block (utils.py lines 272-299 etc.): two replacements,
then the cleaning function, guarded by column presence. -/
def cleanColWith (df : DF) (col : String) (cleaner : Cell → Dec) : DF :=
  if df.cols.contains col then
    ((df.mapCol col (replaceCellVal "")).mapCol col (replaceCellVal "nan")).mapCol col
      (fun c => Cell.num (cleaner c))
  else df

/-- `clean_money_columns` (utils.py lines 258-361), acting on the copy. -/
def clean_money_columns (df : DF) : DF :=
  cleanColWith (cleanColWith (cleanColWith df "Money In" clean_money_in)
    "Money out" clean_money_out) "Balance" clean_balance

-- ### Value Normalizer, dates (utils.py lines 363-426)

/-- One `strptime` format directive: a literal character or a numeric field
(`%d`, `%m`, `%Y`, `%y`, `%H`, `%M`, `%S`). -/
inductive Tok where
  | lit : Char → Tok
  | dd : Tok
  | mm : Tok
  | yyyy : Tok
  | yy : Tok
  | hh : Tok
  | mins : Tok
  | ss : Tok
deriving DecidableEq, Repr

/-- Captured fields during a `strptime` match, pre-filled with the CPython
defaults (day 1, month 1, year 1900, midnight). -/
structure Caps where
  d : ℕ
  mo : ℕ
  y : ℕ
  h : ℕ
  mi : ℕ
  s : ℕ
deriving DecidableEq, Repr

/-- May a numeric directive consume exactly this digit run?  Mirrors the
CPython `_strptime` regular expressions (`%d`: 1-31, `%m`: 1-12, `%H`: 0-23,
`%M`: 0-59, `%S`: 0-61, `%Y`: four digits, `%y`: two digits); in the formats
used here every directive is delimited by non-digit literals, so it must
consume a maximal digit run. -/
def tokRunOk (t : Tok) (r : List Char) : Bool :=
  match t, r.length with
  | Tok.dd, 1 => decide (1 ≤ digitsVal r)
  | Tok.dd, 2 => decide (1 ≤ digitsVal r ∧ digitsVal r ≤ 31)
  | Tok.mm, 1 => decide (1 ≤ digitsVal r)
  | Tok.mm, 2 => decide (1 ≤ digitsVal r ∧ digitsVal r ≤ 12)
  | Tok.hh, 1 => true
  | Tok.hh, 2 => decide (digitsVal r ≤ 23)
  | Tok.mins, 1 => true
  | Tok.mins, 2 => decide (digitsVal r ≤ 59)
  | Tok.ss, 1 => true
  | Tok.ss, 2 => decide (digitsVal r ≤ 61)
  | Tok.yyyy, 4 => true
  | Tok.yy, 2 => true
  | _, _ => false

/-- Record a captured numeric field (`%y` is resolved to 1969-2068 as CPython
does). -/
def setTok (t : Tok) (v : ℕ) (c : Caps) : Caps :=
  match t with
  | Tok.dd => { c with d := v }
  | Tok.mm => { c with mo := v }
  | Tok.yyyy => { c with y := v }
  | Tok.yy => { c with y := if v ≤ 68 then 2000 + v else 1900 + v }
  | Tok.hh => { c with h := v }
  | Tok.mins => { c with mi := v }
  | Tok.ss => { c with s := v }
  | Tok.lit _ => c

/-- Match a token list against the whole input (strptime requires the entire
string to be consumed). -/
def matchToks : List Tok → List Char → Caps → Option Caps
  | [], [], cap => some cap
  | [], _ :: _, _ => none
  | Tok.lit c :: ts, xs, cap =>
    match xs with
    | [] => none
    | x :: xr => if x = c then matchToks ts xr cap else none
  | t :: ts, xs, cap =>
    let r := xs.takeWhile Char.isDigit
    if tokRunOk t r then matchToks ts (xs.dropWhile Char.isDigit) (setTok t (digitsVal r) cap)
    else none

/-- Gregorian leap year. -/
def isLeap (y : ℕ) : Bool := (y % 4 = 0 && y % 100 ≠ 0) || y % 400 = 0

/-- Days in a month. -/
def daysInMonth (y m : ℕ) : ℕ :=
  if m = 2 then (if isLeap y then 29 else 28)
  else if m = 4 ∨ m = 6 ∨ m = 9 ∨ m = 11 then 30 else 31

/-- The `datetime` constructor checks (CPython rejects second 60/61 and any
out-of-range field with `ValueError`, which `parse_dates` turns into a format
failure). -/
def validCaps (c : Caps) : Bool :=
  decide (1 ≤ c.y) && decide (c.y ≤ 9999) && decide (1 ≤ c.mo) && decide (c.mo ≤ 12) &&
    decide (1 ≤ c.d) && decide (c.d ≤ daysInMonth c.y c.mo) && decide (c.h ≤ 23) &&
    decide (c.mi ≤ 59) && decide (c.s ≤ 59)

/-- `datetime.strptime(s, fmt)` for one format, `none` for `ValueError`. -/
def strptimeF (toks : List Tok) (s : String) : Option PyDateTime :=
  match matchToks toks s.data ⟨1, 1, 1900, 0, 0, 0⟩ with
  | some c => if validCaps c then some ⟨c.y, c.mo, c.d, c.h, c.mi, c.s⟩ else none
  | none => none

/-- Format `'%d/%m/%Y %H:%M'` (utils.py line 396). -/
def fmtA : List Tok :=
  [Tok.dd, Tok.lit '/', Tok.mm, Tok.lit '/', Tok.yyyy, Tok.lit ' ', Tok.hh, Tok.lit ':', Tok.mins]

/-- Format `'%d/%m/%y %H:%M:%S'` (utils.py line 397). -/
def fmtB : List Tok :=
  [Tok.dd, Tok.lit '/', Tok.mm, Tok.lit '/', Tok.yy, Tok.lit ' ', Tok.hh, Tok.lit ':', Tok.mins,
   Tok.lit ':', Tok.ss]

/-- Format `'%d/%m/%Y %H:%M:%S'` (utils.py line 398). -/
def fmtC : List Tok :=
  [Tok.dd, Tok.lit '/', Tok.mm, Tok.lit '/', Tok.yyyy, Tok.lit ' ', Tok.hh, Tok.lit ':', Tok.mins,
   Tok.lit ':', Tok.ss]

/-- Format `'%Y-%m-%d %H:%M:%S'` (utils.py line 399). -/
def fmtD : List Tok :=
  [Tok.yyyy, Tok.lit '-', Tok.mm, Tok.lit '-', Tok.dd, Tok.lit ' ', Tok.hh, Tok.lit ':', Tok.mins,
   Tok.lit ':', Tok.ss]

/-- Format `'%d/%m/%y %H:%M'` (utils.py line 400). -/
def fmtE : List Tok :=
  [Tok.dd, Tok.lit '/', Tok.mm, Tok.lit '/', Tok.yy, Tok.lit ' ', Tok.hh, Tok.lit ':', Tok.mins]

/-- Format `'%d-%m-%Y'` (utils.py line 401). -/
def fmtF : List Tok := [Tok.dd, Tok.lit '-', Tok.mm, Tok.lit '-', Tok.yyyy]

/-- Format `'%d/%m/%Y'` (utils.py line 402). -/
def fmtG : List Tok := [Tok.dd, Tok.lit '/', Tok.mm, Tok.lit '/', Tok.yyyy]

/-- Format `'%d/%m/%y'` (utils.py line 403). -/
def fmtH : List Tok := [Tok.dd, Tok.lit '/', Tok.mm, Tok.lit '/', Tok.yy]

/-- The ordered `date_formats` list (utils.py lines 395-404). -/
def dateFormats : List (List Tok) := [fmtA, fmtB, fmtC, fmtD, fmtE, fmtF, fmtG, fmtH]

/-- Try each format until one works (utils.py lines 407-416). -/
def firstParse : List (List Tok) → String → Option PyDateTime
  | [], _ => none
  | f :: fs, s =>
    match strptimeF f s with
    | some t => some t
    | none => firstParse fs s

/-- Per-cell date normalization: composite effect of `astype(str)`, the two
`replace` calls, the `NaT` check and the format loop of `parse_dates`
(utils.py lines 376-421); `none` is `NaT`. -/
def parse_date_cell (c : Cell) : Option PyDateTime :=
  let s := cellStr c
  if s = "nan" ∨ s = "" ∨ s = "NaT" then none
  else firstParse dateFormats s

/-- Per-cell `astype(str)` (utils.py line 378). -/
def dtAstypeCell (c : Cell) : Cell := Cell.str (cellStr c)

/-- Per-cell parse loop body on the normalized column (utils.py lines
387-421): missing and `'NaT'` text give `NaT`, otherwise first matching
format, `NaT` when no format matches. -/
def dtParseCell (c : Cell) : Cell :=
  match c with
  | Cell.na => Cell.na
  | c =>
    if cellStr c = "NaT" then Cell.na
    else
      match firstParse dateFormats (cellStr c) with
      | some t => Cell.dt t
      | none => Cell.na

/-- `parse_dates` (utils.py lines 363-426), acting on the copy: stringify the
`Date/Time` column, turn `'nan'` and `''` into missing, then parse each
entry. -/
def parse_dates (df : DF) : DF :=
  if df.cols.contains "Date/Time" then
    ((((df.mapCol "Date/Time" dtAstypeCell).mapCol "Date/Time"
        (replaceCellVal "nan")).mapCol "Date/Time"
        (replaceCellVal "")).mapCol "Date/Time" dtParseCell)
  else df

-- ### filter_out_savings (utils.py lines 428-467)

/-- Per-cell `fillna('')` (utils.py line 443). -/
def descFillCell (c : Cell) : Cell :=
  match c with
  | Cell.na => Cell.str ""
  | c => c

/-- Per-cell `astype(str)` (utils.py line 446). -/
def descAstypeCell (c : Cell) : Cell := Cell.str (cellStr c)

/-- Per-cell `replace('nan', '')` (utils.py line 449). -/
def descReplaceCell (c : Cell) : Cell :=
  if c = Cell.str "nan" then Cell.str "" else c

/-- The mask test `df['Description'].str.lower().str.contains('savings')`
per cell (utils.py line 453). -/
def hasSavingsCell (c : Cell) : Bool := substrB "savings" (lowerCellStr c)

/-- `filter_out_savings` (utils.py lines 428-467), acting on the copy:
normalize the `Description` column, then keep the rows whose description does
not contain `savings` (the `try` branch; its fallback is unreachable in this
model). -/
def filter_out_savings (df : DF) : DF :=
  if df.cols.contains "Description" then
    let d3 := ((df.mapCol "Description" descFillCell).mapCol "Description"
        descAstypeCell).mapCol "Description" descReplaceCell
    ⟨d3.cols, d3.rows.filter (fun r => !hasSavingsCell (r.getD (d3.colIdx "Description") Cell.na))⟩
  else df

/-- Composite per-cell normalization performed on the `Description` column
before filtering (`fillna('')`, `astype(str)`, `replace('nan','')`). -/
def descNormCell (c : Cell) : Cell := descReplaceCell (descAstypeCell (descFillCell c))

/-- Claim-side keep test for `filter_out_savings`, following the claim words:
the description text, with an absent/null description treated as empty text,
contains `savings` case-insensitively. -/
def specHasSavings (c : Cell) : Bool :=
  substrB "savings" (lowerStr (match c with
    | Cell.na => ""
    | c => cellStr c))

-- ### Object-store model of the three transforms (for the purity claim)

/-- Allocate a fresh DataFrame object (`df.copy()`, or a fresh frame returned
by pandas indexing) and return its reference. -/
def halloc (s : List DF) (d : DF) : List DF × ℕ := (s ++ [d], s.length)

/-- In-place update of the object behind reference `r` (a pandas column
assignment mutates the frame object). -/
def hset (s : List DF) (r : ℕ) (d : DF) : List DF := s.set r d

/-- Read the object behind reference `r`. -/
def hget (s : List DF) (r : ℕ) : DF := s.getD r ⟨[], []⟩

/-- The three statements of one money-column block as in-place updates on the
object behind `r` (utils.py lines 272-299, 301-329, 331-359). -/
def moneyBlockHeap (s : List DF) (r : ℕ) (col : String) (cleaner : Cell → Dec) : List DF :=
  if (hget s r).cols.contains col then
    let a := hset s r ((hget s r).mapCol col (replaceCellVal ""))
    let b := hset a r ((hget a r).mapCol col (replaceCellVal "nan"))
    hset b r ((hget b r).mapCol col (fun c => Cell.num (cleaner c)))
  else s

/-- `clean_money_columns` as statements over the object store
(utils.py lines 268-361): copy, then nine in-place column assignments on the
copy, three per present money column. -/
def clean_money_columns_heap (s : List DF) (r : ℕ) : List DF × ℕ :=
  let p := halloc s (hget s r)
  let s1 := moneyBlockHeap p.1 p.2 "Money In" clean_money_in
  let s2 := moneyBlockHeap s1 p.2 "Money out" clean_money_out
  let s3 := moneyBlockHeap s2 p.2 "Balance" clean_balance
  (s3, p.2)

/-- The four statements of the `Date/Time` block as in-place updates
(utils.py lines 376-424). -/
def dateBlockHeap (s : List DF) (r : ℕ) : List DF :=
  if (hget s r).cols.contains "Date/Time" then
    let a := hset s r ((hget s r).mapCol "Date/Time" dtAstypeCell)
    let b := hset a r ((hget a r).mapCol "Date/Time" (replaceCellVal "nan"))
    let c := hset b r ((hget b r).mapCol "Date/Time" (replaceCellVal ""))
    hset c r ((hget c r).mapCol "Date/Time" dtParseCell)
  else s

/-- `parse_dates` as statements over the object store (utils.py lines
373-426): copy, then four in-place column assignments on the copy. -/
def parse_dates_heap (s : List DF) (r : ℕ) : List DF × ℕ :=
  let p := halloc s (hget s r)
  (dateBlockHeap p.1 p.2, p.2)

/-- The `Description` block: three in-place column assignments, then
`df = df[mask]`, which allocates a fresh filtered frame
(utils.py lines 441-454). -/
def filterBlockHeap (s : List DF) (r : ℕ) : List DF × ℕ :=
  if (hget s r).cols.contains "Description" then
    let a := hset s r ((hget s r).mapCol "Description" descFillCell)
    let b := hset a r ((hget a r).mapCol "Description" descAstypeCell)
    let c := hset b r ((hget b r).mapCol "Description" descReplaceCell)
    let d3 := hget c r
    halloc c ⟨d3.cols,
      d3.rows.filter (fun row => !hasSavingsCell (row.getD (d3.colIdx "Description") Cell.na))⟩
  else (s, r)

/-- `filter_out_savings` as statements over the object store (utils.py lines
438-467): copy, then the `Description` block on the copy. -/
def filter_out_savings_heap (s : List DF) (r : ℕ) : List DF × ℕ :=
  let p := halloc s (hget s r)
  filterBlockHeap p.1 p.2

/-- Claim-side description of the exact pass outcome: the index of the LAST
header cell whose trimmed lower-cased text equals the synonym (an overwrite
fold, mirroring how repeated dict assignment behaves). -/
def lastIdxWith (syn : String) (header : List Cell) : Option ℕ :=
  header.enum.foldl (fun acc ic => if trimLowerCell ic.2 = syn then some ic.1 else acc) none

/-- Claim-side monetary-value test for C8: the text contains a currency
symbol, or is numeric after stripping the separators (commas and dots). -/
def specMonetaryStr (s : String) : Bool :=
  substrB "₦" s || isDigitStr ⟨s.data.filter (fun ch => ch ≠ ',' ∧ ch ≠ '.')⟩

/-- The closing-balance provenance predicate: `v` is the text of the first
non-null money-ish cell among the up-to-two cells following a triggering
(`balance`/`closing`) cell of `row`. -/
def closingWitness (row : List Cell) (v : String) : Prop :=
  ∃ j k : ℕ, balTrigCell (row.getD j Cell.na) = true ∧ j < k ∧
    k < min (j + 3) row.length ∧
    notnaB (row.getD k Cell.na) = true ∧ balMoneyishCell (row.getD k Cell.na) = true ∧
    v = cellStr (row.getD k Cell.na) ∧
    (∀ k', j < k' → k' < k →
      ¬(notnaB (row.getD k' Cell.na) = true ∧ balMoneyishCell (row.getD k' Cell.na) = true))

/-- Analysis helper: the canonical name the substring fallback pass would
assign for a header cell — the first synonym contained in the trimmed
lower-cased text of a non-null cell.  Every entry of `column_indices`
satisfies this description (the exact pass is a special case, since no
synonym is a substring of another). -/
def subCanon (c : Cell) : Option String :=
  if notnaB c then
    (requiredColumns.find? (fun kv => substrB kv.1 (trimLowerCell c))).map (fun kv => kv.2)
  else none

/-- Analysis invariant of the column-mapper dict: every entry names the
canonical column determined by the header cell at its index, and indexes into
the header row. -/
def dictInv (header : List Cell) (d : List (String × ℕ)) : Prop :=
  ∀ p ∈ d, subCanon (header.getD p.2 Cell.na) = some p.1 ∧ p.2 < header.length

-- ### Claim-side content predicates (C3)

/-- Claim-side predicate: the cell text contains date/time-like content
(`date`, `time`, or `date/time` — the last implies the first). -/
def dateLikeCell (c : Cell) : Prop :=
  substrB "date" (lowerCellStr c) = true ∨ substrB "time" (lowerCellStr c) = true

/-- Claim-side predicate: the cell text contains money-like content
(`money` or `balance`). -/
def moneyLikeCell (c : Cell) : Prop :=
  substrB "money" (lowerCellStr c) = true ∨ substrB "balance" (lowerCellStr c) = true

instance decDateLikeCell (c : Cell) : Decidable (dateLikeCell c) := by
  unfold dateLikeCell
  infer_instance

instance decMoneyLikeCell (c : Cell) : Decidable (moneyLikeCell c) := by
  unfold moneyLikeCell
  infer_instance

-- ### Theorems-- ### Theorems

/-- C2: positional fast path.  For every grid having a row at index 15 whose
cell at column index 2 case-insensitively equals `"date/time"`, the Header
Locator returns 15, regardless of the content of every other row and cell.
(The code even accepts a substring occurrence; exact equality is a special
case of it.) -/
theorem c2_positional_fast_path (grid : List (List Cell))
    (h15 : 15 < grid.length)
    (hw : 2 < (grid.getD 15 []).length)
    (hcell : lowerCellStr ((grid.getD 15 []).getD 2 Cell.na) = "date/time") :
    find_header_row grid = some 15 := by
  have hpos : posCheck grid = some 15 := by
    unfold posCheck
    rw [if_pos h15, if_pos ⟨hw, by rw [hcell]; decide⟩]
  unfold find_header_row
  rw [hpos]

/-- Witness for C2 at a concrete grid: fifteen filler rows, then a row whose
third cell reads `"Date/Time"`. -/
theorem c2_positional_fast_path_witness :
    find_header_row
      (List.replicate 15 [Cell.str "filler", Cell.na, Cell.na] ++
        [[Cell.na, Cell.na, Cell.str "Date/Time"]]) = some 15 :=
  c2_positional_fast_path _ (by decide) (by decide) (by decide)

-- ### Generic list helpers

theorem list_getD_set_self {α : Type} (l : List α) (n : ℕ) (a d : α) (h : n < l.length) :
    (l.set n a).getD n d = a := by
  simp [List.getD_eq_getElem?_getD, List.getElem?_set_self h]

theorem list_getD_of_len_le {α : Type} (l : List α) (n : ℕ) (d : α) (h : l.length ≤ n) :
    l.getD n d = d := by
  simp [List.getD_eq_getElem?_getD, List.getElem?_eq_none h]

-- ### The combined scan finds the first hit row

theorem scanExactOrCooc_first (l : List (List Cell)) (base i : ℕ)
    (hi : i < l.length) (hhit : rowHitB (l.getD i []) = true)
    (hfirst : ∀ j, j < i → rowHitB (l.getD j []) = false) :
    scanExactOrCooc l base = some (base + i) := by
  induction l generalizing base i with
  | nil => simp at hi
  | cons row rest ih =>
    cases i with
    | zero =>
      rw [List.getD_cons_zero] at hhit
      unfold scanExactOrCooc
      simp [hhit]
    | succ k =>
      have h0 : rowHitB row = false := by
        have h0' := hfirst 0 (Nat.succ_pos k)
        rwa [List.getD_cons_zero] at h0'
      have hrec := ih (base + 1) k (by simpa using hi)
        (by rwa [List.getD_cons_succ] at hhit)
        (fun j hj => by
          have := hfirst (j + 1) (Nat.succ_lt_succ hj)
          rwa [List.getD_cons_succ] at this)
      unfold scanExactOrCooc
      rw [h0]
      simp only [Bool.false_eq_true, if_false, hrec]
      congr 1
      omega

/-- C1 counterexample: in the grid whose row 0 holds a `date` cell and a
`money` cell and whose row 1 holds an exact `date/time` cell (and which has no
row 15, so no positional match), the locator returns 0, not the index 1 of
the first row with an exact `date/time` cell — the exact scan does not run
over the whole grid before the co-occurrence test is consulted. -/
theorem c1_counterexample :
    (∀ c ∈ [Cell.str "date", Cell.str "money"], lowerCellStr c ≠ "date/time") ∧
    lowerCellStr (Cell.str "date/time") = "date/time" ∧
    find_header_row [[Cell.str "date", Cell.str "money"], [Cell.str "date/time", Cell.na]] =
      some 0 := by
  decide

/-- C1 (amended): stages 2 and 3 are interleaved in one top-to-bottom loop:
when the positional check fails, the locator returns the index of the first
row that either contains an exact `date/time` cell or contains both a `date`
substring cell and a `money` substring cell. -/
theorem c1_amended_interleaved_scan (grid : List (List Cell)) (i : ℕ)
    (hpos : posCheck grid = none) (hi : i < grid.length)
    (hhit : rowHitB (grid.getD i []) = true)
    (hfirst : ∀ j, j < i → rowHitB (grid.getD j []) = false) :
    find_header_row grid = some i := by
  unfold find_header_row
  rw [hpos, scanExactOrCooc_first grid 0 i hi hhit hfirst]
  simp

/-- Witness for the amended C1 at a concrete one-row grid. -/
theorem c1_amended_interleaved_scan_witness :
    find_header_row [[Cell.str "Transaction Date", Cell.str "Money In"]] = some 0 :=
  c1_amended_interleaved_scan _ 0 (by decide) (by decide) (by decide)
    (fun j hj => absurd hj (Nat.not_lt_zero j))

-- ### Money cleaning facts

theorem pyFloatOfDigits_man_nonneg (s : String) (d : Dec)
    (h : pyFloatOfDigits s = some d) : 0 ≤ d.man := by
  unfold pyFloatOfDigits at h
  rcases hs : s.data.splitOn '.' with _ | ⟨a, _ | ⟨b, _ | _⟩⟩ <;> rw [hs] at h <;>
    simp only [] at h
  · exact absurd h (by simp)
  · split at h
    · cases h
      exact Int.natCast_nonneg _
    · exact absurd h (by simp)
  · split at h
    · cases h
      exact Int.natCast_nonneg _
    · exact absurd h (by simp)
  · exact absurd h (by simp)

theorem dec_toRat_nonneg (d : Dec) (h : 0 ≤ d.man) : 0 ≤ d.toRat := by
  unfold Dec.toRat
  apply div_nonneg
  · exact_mod_cast h
  · positivity

theorem clean_money_in_nonneg_of_str (s : String) :
    0 ≤ (clean_money_in (Cell.str s)).toRat := by
  unfold clean_money_in
  simp only []
  split
  · norm_num [Dec.ofNat, Dec.toRat]
  · rcases hp : pyFloatOfDigits (stripNonDigitDot (cellStr (Cell.str s))) with _ | d
    · simp only [hp]
      norm_num [Dec.ofNat, Dec.toRat]
    · simp only [hp]
      exact dec_toRat_nonneg d (pyFloatOfDigits_man_nonneg _ d hp)

theorem clean_money_out_eq_in (x : Cell) : clean_money_out x = clean_money_in x := by
  cases x <;> rfl

theorem clean_balance_eq_in (x : Cell) : clean_balance x = clean_money_in x := by
  cases x <;> rfl

/-- C5 counterexample: a Money In cell that is already numeric with value -5
is passed through unchanged by `clean_money_in`, so the cleaned value is
negative — the claim that every input cell cleans to a non-negative number
fails for numeric cells. -/
theorem c5_counterexample :
    clean_money_in (Cell.num ⟨-5, 0⟩) = ⟨-5, 0⟩ ∧ (Dec.toRat ⟨-5, 0⟩) < 0 := by
  constructor
  · rfl
  · norm_num [Dec.toRat]

/-- C5 (amended): for every absent or string-valued input cell the cleaned
Money In / Money out / Balance value is non-negative (the digit/dot strip
discards a leading minus sign); already-numeric cells pass through unchanged
and are not covered. -/
theorem c5_amended_nonneg (x : Cell) (hx : x = Cell.na ∨ ∃ s, x = Cell.str s) :
    0 ≤ (clean_money_in x).toRat ∧ 0 ≤ (clean_money_out x).toRat ∧
      0 ≤ (clean_balance x).toRat := by
  have hin : 0 ≤ (clean_money_in x).toRat := by
    rcases hx with hna | ⟨s, hstr⟩
    · subst hna
      norm_num [clean_money_in, Dec.ofNat, Dec.toRat]
    · subst hstr
      exact clean_money_in_nonneg_of_str s
  exact ⟨hin, by rwa [clean_money_out_eq_in], by rwa [clean_balance_eq_in]⟩

/-- Witness for the amended C5 at the specification's round-trip example cell. -/
theorem c5_amended_nonneg_witness :
    0 ≤ (clean_money_in (Cell.str "₦1,234.56")).toRat ∧
      0 ≤ (clean_money_out (Cell.str "₦1,234.56")).toRat ∧
      0 ≤ (clean_balance (Cell.str "₦1,234.56")).toRat :=
  c5_amended_nonneg _ (Or.inr ⟨_, rfl⟩)

-- ### filter_out_savings lemmas

theorem set_comp_cell (r : List Cell) (p : ℕ) (f g : Cell → Cell) :
    (r.set p (f (r.getD p Cell.na))).set p
        (g ((r.set p (f (r.getD p Cell.na))).getD p Cell.na)) =
      r.set p (g (f (r.getD p Cell.na))) := by
  by_cases h : p < r.length
  · rw [list_getD_set_self _ _ _ _ h, List.set_set]
  · have hle : r.length ≤ p := Nat.le_of_not_lt h
    simp [List.set_eq_of_length_le hle]

theorem mapCol_mapCol (df : DF) (c : String) (f g : Cell → Cell) :
    (df.mapCol c f).mapCol c g = df.mapCol c (fun x => g (f x)) := by
  unfold DF.mapCol DF.colIdx
  simp only [List.map_map]
  have hfun : ((fun r : List Cell => r.set (df.cols.findIdx (fun x => x = c))
        (g (r.getD (df.cols.findIdx (fun x => x = c)) Cell.na))) ∘
      (fun r : List Cell => r.set (df.cols.findIdx (fun x => x = c))
        (f (r.getD (df.cols.findIdx (fun x => x = c)) Cell.na)))) =
      (fun r : List Cell => r.set (df.cols.findIdx (fun x => x = c))
        (g (f (r.getD (df.cols.findIdx (fun x => x = c)) Cell.na)))) := by
    funext r
    exact set_comp_cell r (df.cols.findIdx (fun x => x = c)) f g
  rw [hfun]

theorem replace_sav (u : String) :
    hasSavingsCell (descReplaceCell (Cell.str u)) = substrB "savings" (lowerStr u) := by
  by_cases h : u = "nan"
  · subst h
    decide
  · simp [descReplaceCell, h, hasSavingsCell, lowerCellStr, cellStr]

theorem norm_sav (c : Cell) : hasSavingsCell (descNormCell c) = specHasSavings c := by
  cases c <;>
    simp [descNormCell, descFillCell, descAstypeCell, cellStr, replace_sav, specHasSavings]

/-- C9: `filter_out_savings` keeps exactly the rows whose description does not
contain `savings` case-insensitively (absent/null description meaning empty
text, hence kept), in order, rewriting the description cell to its normalized
text; and on descriptions `["Savings top-up", "Rent payment",
"SAVINGS withdrawal"]` exactly `["Rent payment"]` survives. -/
theorem c9_filter_out_savings :
    (∀ df : DF, df.cols.contains "Description" = true →
      (filter_out_savings df).rows =
        (df.rows.filter
            (fun r => !specHasSavings (r.getD (df.colIdx "Description") Cell.na))).map
          (fun r => r.set (df.colIdx "Description")
            (descNormCell (r.getD (df.colIdx "Description") Cell.na)))) ∧
    filter_out_savings
        ⟨["Description"],
         [[Cell.str "Savings top-up"], [Cell.str "Rent payment"],
          [Cell.str "SAVINGS withdrawal"]]⟩ =
      ⟨["Description"], [[Cell.str "Rent payment"]]⟩ := by
  constructor
  · intro df hd
    unfold filter_out_savings
    rw [if_pos hd, mapCol_mapCol, mapCol_mapCol]
    have hnorm : (fun x => descReplaceCell ((fun y => descAstypeCell (descFillCell y)) x)) =
        descNormCell := rfl
    rw [hnorm]
    simp only [DF.mapCol, DF.colIdx]
    rw [List.filter_map]
    congr 1
    apply List.filter_congr
    intro r _
    simp only [Function.comp]
    by_cases h : df.cols.findIdx (fun x => x = "Description") < r.length
    · rw [list_getD_set_self _ _ _ _ h, norm_sav]
    · have hle : r.length ≤ df.cols.findIdx (fun x => x = "Description") :=
        Nat.le_of_not_lt h
      rw [List.set_eq_of_length_le hle, list_getD_of_len_le _ _ _ hle]
      decide
  · decide

/-- Witness for C9: the general row characterization applied to the concrete
three-row table of the claim. -/
theorem c9_filter_out_savings_witness :
    (filter_out_savings
        ⟨["Description"],
         [[Cell.str "Savings top-up"], [Cell.str "Rent payment"],
          [Cell.str "SAVINGS withdrawal"]]⟩).rows = [[Cell.str "Rent payment"]] := by
  rw [c9_filter_out_savings.1
    ⟨["Description"],
     [[Cell.str "Savings top-up"], [Cell.str "Rent payment"],
      [Cell.str "SAVINGS withdrawal"]]⟩ (by decide)]
  decide

-- ### Small Bool eliminators

theorem bool_or_elim {a b : Bool} (h : (a || b) = true) : a = true ∨ b = true := by
  cases a
  · exact Or.inr (by simpa using h)
  · exact Or.inl rfl

theorem bool_and_elim {a b : Bool} (h : (a && b) = true) : a = true ∧ b = true := by
  cases a <;> cases b <;> simp_all

-- ### Lower-casing is idempotent

theorem char_toLower_idem (a : Char) : a.toLower.toLower = a.toLower := by
  by_cases h : a.toNat ≥ 65 ∧ a.toNat ≤ 90
  · obtain ⟨h1, h2⟩ := h
    have hrw : a.toLower = Char.ofNat (a.toNat + 32) := by
      unfold Char.toLower
      rw [if_pos ⟨h1, h2⟩]
    rw [hrw]
    generalize a.toNat = n at h1 h2 ⊢
    interval_cases n <;> decide
  · have hrw : a.toLower = a := by
      unfold Char.toLower
      rw [if_neg h]
    rw [hrw, hrw]

theorem lowerStr_idem (s : String) : lowerStr (lowerStr s) = lowerStr s := by
  unfold lowerStr
  simp only [List.map_map]
  exact congrArg String.mk (List.map_congr_left (fun a _ => char_toLower_idem a))

-- ### Substring facts

theorem startsWithSeq_self (p : List Char) : startsWithSeq p p = true := by
  induction p with
  | nil => rfl
  | cons c ps ih => simp [startsWithSeq, ih]

theorem containsSeq_of_startsWith (p s : List Char) (h : startsWithSeq p s = true) :
    containsSeq p s = true := by
  cases s with
  | nil =>
    cases p with
    | nil => rfl
    | cons c ps => simp [startsWithSeq] at h
  | cons x xs =>
    rw [containsSeq, h, Bool.true_or]

theorem containsSeq_self (p : List Char) : containsSeq p p = true :=
  containsSeq_of_startsWith p p (startsWithSeq_self p)

theorem startsWithSeq_trans (q p s : List Char) (hqp : startsWithSeq q p = true)
    (hps : startsWithSeq p s = true) : startsWithSeq q s = true := by
  induction q generalizing p s with
  | nil => rfl
  | cons c qs ih =>
    cases p with
    | nil => simp [startsWithSeq] at hqp
    | cons d ps =>
      cases s with
      | nil => simp [startsWithSeq] at hps
      | cons e es =>
        simp only [startsWithSeq, Bool.and_eq_true, decide_eq_true_eq] at hqp hps ⊢
        exact ⟨hqp.1.trans hps.1, ih ps es hqp.2 hps.2⟩

theorem containsSeq_mono (q p s : List Char) (hqp : startsWithSeq q p = true)
    (h : containsSeq p s = true) : containsSeq q s = true := by
  induction s with
  | nil =>
    rw [containsSeq] at h ⊢
    cases p with
    | nil =>
      cases q with
      | nil => rfl
      | cons c qs => simp [startsWithSeq] at hqp
    | cons d ps => simp at h
  | cons x xs ih =>
    rw [containsSeq] at h
    rcases bool_or_elim h with h1 | h2
    · exact containsSeq_of_startsWith _ _ (startsWithSeq_trans q p (x :: xs) hqp h1)
    · rw [containsSeq, ih h2, Bool.or_true]

theorem startsWith_split_space (p : List Char) :
    ∀ (a b : List Char), ' ' ∉ p → startsWithSeq p (a ++ ' ' :: b) = true →
      startsWithSeq p a = true := by
  induction p with
  | nil => intro a b _ _; rfl
  | cons c ps ih =>
    intro a b hsp h
    cases a with
    | nil =>
      simp only [List.nil_append, startsWithSeq, Bool.and_eq_true, decide_eq_true_eq] at h
      exact absurd (h.1 ▸ List.mem_cons_self c ps) hsp
    | cons x as =>
      simp only [List.cons_append, startsWithSeq, Bool.and_eq_true, decide_eq_true_eq] at h ⊢
      exact ⟨h.1, ih as b (fun hm => hsp (List.mem_cons_of_mem _ hm)) h.2⟩

theorem containsSeq_split_space (p a b : List Char) (hsp : ' ' ∉ p) (hne : p ≠ [])
    (h : containsSeq p (a ++ ' ' :: b) = true) :
    containsSeq p a = true ∨ containsSeq p b = true := by
  induction a with
  | nil =>
    rw [List.nil_append, containsSeq] at h
    rcases bool_or_elim h with h1 | h2
    · cases p with
      | nil => exact absurd rfl hne
      | cons c ps =>
        simp only [startsWithSeq, Bool.and_eq_true, decide_eq_true_eq] at h1
        exact absurd (h1.1 ▸ List.mem_cons_self c ps) hsp
    · exact Or.inr h2
  | cons x as ih =>
    rw [List.cons_append, containsSeq] at h
    rcases bool_or_elim h with h1 | h2
    · left
      cases p with
      | nil => exact absurd rfl hne
      | cons c ps =>
        simp only [startsWithSeq, Bool.and_eq_true, decide_eq_true_eq] at h1
        have hps : startsWithSeq ps as = true :=
          startsWith_split_space ps as b (fun hm => hsp (List.mem_cons_of_mem _ hm)) h1.2
        apply containsSeq_of_startsWith
        simp [startsWithSeq, h1.1, hps]
    · rcases ih h2 with ha | hb
      · left
        rw [containsSeq, ha, Bool.or_true]
      · exact Or.inr hb

theorem containsSeq_joinSp (p : List Char) (l : List String) (hsp : ' ' ∉ p) (hne : p ≠ [])
    (h : containsSeq p (joinSp l).data = true) : ∃ s ∈ l, containsSeq p s.data = true := by
  induction l with
  | nil =>
    rw [joinSp] at h
    cases p with
    | nil => exact absurd rfl hne
    | cons c ps => simp [containsSeq] at h
  | cons s rest ih =>
    cases rest with
    | nil =>
      rw [joinSp] at h
      exact ⟨s, List.mem_cons_self s [], h⟩
    | cons r rs =>
      have hdata : (joinSp (s :: r :: rs)).data = s.data ++ ' ' :: (joinSp (r :: rs)).data := by
        rw [joinSp, String.data_append, String.data_append]
        simp
      rw [hdata] at h
      rcases containsSeq_split_space p _ _ hsp hne h with h1 | h2
      · exact ⟨s, List.mem_cons_self s _, h1⟩
      · obtain ⟨t, ht, hc⟩ := ih h2
        exact ⟨t, List.mem_cons_of_mem s ht, hc⟩

-- ### No hit rows under the C3 hypotheses

theorem rowHitB_false_of (row : List Cell)
    (hd : ¬((∃ c ∈ row, dateLikeCell c) ∧ (∃ c ∈ row, moneyLikeCell c)))
    (he : ∀ c ∈ row, lowerCellStr c ≠ "date/time") : rowHitB row = false := by
  rw [Bool.eq_false_iff]
  intro ht
  simp only [rowHitB] at ht
  rcases bool_or_elim ht with hA | hBC
  · obtain ⟨x, hx, hp⟩ := List.any_eq_true.mp hA
    obtain ⟨c, hc, rfl⟩ := List.mem_map.mp hx
    have hp' : lowerStr (lowerCellStr c) = "date/time" := of_decide_eq_true hp
    exact he c hc ((lowerStr_idem (cellStr c)).symm.trans hp')
  · obtain ⟨hB, hC⟩ := bool_and_elim hBC
    obtain ⟨x, hx, hpx⟩ := List.any_eq_true.mp hB
    obtain ⟨c, hc, rfl⟩ := List.mem_map.mp hx
    obtain ⟨x', hx', hpx'⟩ := List.any_eq_true.mp hC
    obtain ⟨c', hc', rfl⟩ := List.mem_map.mp hx'
    exact hd ⟨⟨c, hc, Or.inl hpx⟩, ⟨c', hc', Or.inl hpx'⟩⟩

theorem looseHitB_false_of (row : List Cell)
    (hd : ¬((∃ c ∈ row, dateLikeCell c) ∧ (∃ c ∈ row, moneyLikeCell c))) :
    looseHitB row = false := by
  rw [Bool.eq_false_iff]
  intro ht
  simp only [looseHitB] at ht
  obtain ⟨hdate, hmoney⟩ := bool_and_elim ht
  generalize hrv : (row.filter notnaB).map lowerCellStr = rv at hdate hmoney
  have hmem_of : ∀ s : String, s ∈ rv → ∃ c ∈ row, lowerCellStr c = s := by
    intro s hs
    rw [← hrv] at hs
    obtain ⟨c, hc, he⟩ := List.mem_map.mp hs
    exact ⟨c, (List.mem_filter.mp hc).1, he⟩
  have hjoin_of : ∀ p : String, ' ' ∉ p.data → p.data ≠ [] →
      substrB p (joinSp rv) = true →
      ∃ c ∈ row, containsSeq p.data (lowerCellStr c).data = true := by
    intro p hsp hne hsub
    obtain ⟨s, hs, hcs⟩ := containsSeq_joinSp p.data rv hsp hne hsub
    obtain ⟨c, hc, he⟩ := hmem_of s hs
    exact ⟨c, hc, he ▸ hcs⟩
  have hmc : ∃ c ∈ row, moneyLikeCell c := by
    rcases bool_or_elim hmoney with hm | hb
    · obtain ⟨c, hc, hcs⟩ := hjoin_of "money" (by decide) (by decide) hm
      exact ⟨c, hc, Or.inl hcs⟩
    · obtain ⟨c, hc, hcs⟩ := hjoin_of "balance" (by decide) (by decide) hb
      exact ⟨c, hc, Or.inr hcs⟩
  have hdc : ∃ c ∈ row, dateLikeCell c := by
    rcases bool_or_elim hdate with h12 | h3
    · rcases bool_or_elim h12 with h1 | h2
      · have hmem : "date" ∈ rv := by simpa [List.contains] using h1
        obtain ⟨c, hc, he⟩ := hmem_of _ hmem
        refine ⟨c, hc, Or.inl ?_⟩
        rw [he]
        decide
      · have hmem : "time" ∈ rv := by simpa [List.contains] using h2
        obtain ⟨c, hc, he⟩ := hmem_of _ hmem
        refine ⟨c, hc, Or.inr ?_⟩
        rw [he]
        decide
    · obtain ⟨c, hc, hcs⟩ := hjoin_of "date/time" (by decide) (by decide) h3
      exact ⟨c, hc, Or.inl (containsSeq_mono _ _ _ (by decide) hcs)⟩
  exact hd ⟨hdc, hmc⟩

theorem scanExactOrCooc_none (l : List (List Cell)) (base : ℕ)
    (h : ∀ row ∈ l, rowHitB row = false) : scanExactOrCooc l base = none := by
  induction l generalizing base with
  | nil => rfl
  | cons row rest ih =>
    have h0 := h row (List.mem_cons_self row rest)
    unfold scanExactOrCooc
    rw [h0]
    simp only [Bool.false_eq_true, if_false]
    exact ih (base + 1) (fun r hr => h r (List.mem_cons_of_mem _ hr))

theorem scanLoose_none (l : List (List Cell)) (base : ℕ)
    (h : ∀ row ∈ l, looseHitB row = false) : scanLoose l base = none := by
  induction l generalizing base with
  | nil => rfl
  | cons row rest ih =>
    have h0 := h row (List.mem_cons_self row rest)
    unfold scanLoose
    rw [h0]
    simp only [Bool.false_eq_true, if_false]
    exact ih (base + 1) (fun r hr => h r (List.mem_cons_of_mem _ hr))

/-- C3 counterexample: a grid with no money-like content anywhere, no row
containing date-like and money-like cells together, and no cell equal to
`date/time` — yet the parse succeeds, because the positional stage accepts a
mere substring occurrence of `date/time` at row 15, column 2. -/
theorem c3_counterexample :
    (∀ row ∈ List.replicate 15 [Cell.na, Cell.na, Cell.na] ++
        [[Cell.na, Cell.na, Cell.str "xdate/timex"]],
      ¬((∃ c ∈ row, dateLikeCell c) ∧ (∃ c ∈ row, moneyLikeCell c))) ∧
    (∀ row ∈ List.replicate 15 [Cell.na, Cell.na, Cell.na] ++
        [[Cell.na, Cell.na, Cell.str "xdate/timex"]],
      ∀ c ∈ row, lowerCellStr c ≠ "date/time") ∧
    parseOkB (process_kuda_excel (List.replicate 15 [Cell.na, Cell.na, Cell.na] ++
      [[Cell.na, Cell.na, Cell.str "xdate/timex"]])) = true := by
  decide

/-- C3 (amended): when additionally the cell at row 15, column 2 (when
present) does not even contain `date/time` as a substring, a grid with no
row-level co-occurrence of date-like and money-like cells and no cell
case-insensitively equal to `date/time` makes the parse fail with the
`HeaderNotFound` error — no table is produced and no other failure occurs. -/
theorem c3_amended_header_not_found (grid : List (List Cell))
    (h1 : ∀ row ∈ grid, ¬((∃ c ∈ row, dateLikeCell c) ∧ (∃ c ∈ row, moneyLikeCell c)))
    (h2 : ∀ row ∈ grid, ∀ c ∈ row, lowerCellStr c ≠ "date/time")
    (h3 : 15 < grid.length → 2 < (grid.getD 15 []).length →
      substrB "date/time" (lowerCellStr ((grid.getD 15 []).getD 2 Cell.na)) = false) :
    process_kuda_excel grid = Except.error ParseError.headerNotFound := by
  have hpos : posCheck grid = none := by
    unfold posCheck
    by_cases h15 : 15 < grid.length
    · have hnot : ¬(2 < (grid.getD 15 []).length ∧
          substrB "date/time" (lowerCellStr ((grid.getD 15 []).getD 2 Cell.na)) = true) := by
        rintro ⟨hw, hsub⟩
        rw [h3 h15 hw] at hsub
        cases hsub
      rw [if_pos h15, if_neg hnot]
    · rw [if_neg h15]
  have hscan : scanExactOrCooc grid 0 = none :=
    scanExactOrCooc_none _ _ (fun row hrow => rowHitB_false_of row (h1 row hrow) (h2 row hrow))
  have hloose : scanLoose grid 0 = none :=
    scanLoose_none _ _ (fun row hrow => looseHitB_false_of row (h1 row hrow))
  unfold process_kuda_excel find_header_row
  rw [hpos, hscan, hloose]

/-- Witness for the amended C3 at a one-row grid with no header-like text. -/
theorem c3_amended_header_not_found_witness :
    process_kuda_excel [[Cell.str "hello"]] = Except.error ParseError.headerNotFound :=
  c3_amended_header_not_found _ (by decide) (by decide) (by decide)

-- ### First-format determinism of the date parser

theorem dt_chain (u : String) :
    dtParseCell (replaceCellVal "" (replaceCellVal "nan" (Cell.str u))) =
      (match (if u = "nan" ∨ u = "" ∨ u = "NaT" then none else firstParse dateFormats u) with
       | some t => Cell.dt t
       | none => Cell.na) := by
  by_cases h1 : u = "nan"
  · subst h1
    decide
  · by_cases h2 : u = ""
    · subst h2
      decide
    · by_cases h3 : u = "NaT"
      · subst h3
        decide
      · simp only [replaceCellVal, Cell.str.injEq, h1, h2, if_false, if_neg,
          dtParseCell, cellStr, h3]
        simp [h1, h2, h3]

theorem firstParse_all_none (fs : List (List Tok)) (s : String)
    (h : ∀ f ∈ fs, strptimeF f s = none) : firstParse fs s = none := by
  induction fs with
  | nil => rfl
  | cons f fs' ih =>
    unfold firstParse
    rw [h f (List.mem_cons_self f fs')]
    exact ih (fun g hg => h g (List.mem_cons_of_mem f hg))

theorem firstParse_first (fs : List (List Tok)) (s : String) :
    ∀ i : ℕ, i < fs.length → (∀ j, j < i → strptimeF (fs.getD j []) s = none) →
      strptimeF (fs.getD i []) s ≠ none →
      firstParse fs s = strptimeF (fs.getD i []) s := by
  induction fs with
  | nil =>
    intro i hi
    exact absurd hi (by simp)
  | cons f fs' ih =>
    intro i hi hfail hsome
    cases i with
    | zero =>
      rw [List.getD_cons_zero] at hsome ⊢
      rcases hsf : strptimeF f s with _ | d
      · exact absurd hsf hsome
      · unfold firstParse
        rw [hsf]
    | succ k =>
      have h0 : strptimeF f s = none := by
        have hk := hfail 0 (Nat.succ_pos k)
        rwa [List.getD_cons_zero] at hk
      rw [List.getD_cons_succ] at hsome ⊢
      unfold firstParse
      rw [h0]
      exact ih k (by simpa using hi)
        (fun j hj => by
          have := hfail (j + 1) (Nat.succ_lt_succ hj)
          rwa [List.getD_cons_succ] at this) hsome

/-- C6: date normalization is total and first-pattern-deterministic: a missing
or empty or `nan` (or `NaT`) text gives null; otherwise the result is that of
the first format in the fixed ordered list that parses, null when all fail.
In particular `16/01/20 09:22:35` parses (day/month/two-digit-year/seconds
pattern, to 2020-01-16 09:22:35) and `not a date` normalizes to null.  Being a
total Lean function, the normalizer never raises. -/
theorem c6_parse_dates_first_format :
    (∀ c : Cell, cellStr c = "nan" ∨ cellStr c = "" ∨ cellStr c = "NaT" →
      parse_date_cell c = none) ∧
    (∀ c : Cell, (∀ f ∈ dateFormats, strptimeF f (cellStr c) = none) →
      parse_date_cell c = none) ∧
    (∀ (c : Cell) (i : ℕ), i < dateFormats.length →
      cellStr c ≠ "nan" → cellStr c ≠ "" → cellStr c ≠ "NaT" →
      (∀ j, j < i → strptimeF (dateFormats.getD j []) (cellStr c) = none) →
      strptimeF (dateFormats.getD i []) (cellStr c) ≠ none →
      parse_date_cell c = strptimeF (dateFormats.getD i []) (cellStr c)) ∧
    parse_date_cell (Cell.str "16/01/20 09:22:35") = some ⟨2020, 1, 16, 9, 22, 35⟩ ∧
    parse_date_cell (Cell.str "not a date") = none ∧
    (∀ df : DF, df.cols.contains "Date/Time" = true →
      (parse_dates df).rows = df.rows.map (fun r =>
        r.set (df.colIdx "Date/Time")
          (match parse_date_cell (r.getD (df.colIdx "Date/Time") Cell.na) with
           | some t => Cell.dt t
           | none => Cell.na))) := by
  refine ⟨?_, ?_, ?_, by decide, by decide, ?_⟩
  · intro c hs
    unfold parse_date_cell
    rw [if_pos hs]
  · intro c hall
    unfold parse_date_cell
    by_cases hs : cellStr c = "nan" ∨ cellStr c = "" ∨ cellStr c = "NaT"
    · rw [if_pos hs]
    · rw [if_neg hs]
      exact firstParse_all_none _ _ hall
  · intro c i hi h1 h2 h3 hfail hsome
    unfold parse_date_cell
    rw [if_neg (by rintro (h | h | h) <;> [exact h1 h; exact h2 h; exact h3 h])]
    exact firstParse_first dateFormats (cellStr c) i hi hfail hsome
  · intro df hd
    unfold parse_dates
    rw [if_pos hd, mapCol_mapCol, mapCol_mapCol, mapCol_mapCol]
    unfold DF.mapCol DF.colIdx
    apply List.map_congr_left
    intro r _
    congr 1
    exact dt_chain (cellStr (r.getD (df.cols.findIdx (fun x => x = "Date/Time")) Cell.na))

/-- Witness for C6: the example cell is decided by the second format after the
first fails, via the first-format-wins part of the theorem. -/
theorem c6_parse_dates_first_format_witness :
    parse_date_cell (Cell.str "16/01/20 09:22:35") =
      strptimeF (dateFormats.getD 1 []) "16/01/20 09:22:35" :=
  c6_parse_dates_first_format.2.2.1 (Cell.str "16/01/20 09:22:35") 1 (by decide)
    (by decide) (by decide) (by decide)
    (fun j hj => by
      have hj0 : j = 0 := by omega
      subst hj0
      decide)
    (by decide)

-- ### Column mapper dict lemmas

theorem lookup_cons (k k1 : String) (v1 : ℕ) (d : List (String × ℕ)) :
    List.lookup k ((k1, v1) :: d) = if k = k1 then some v1 else List.lookup k d := by
  by_cases h : k = k1
  · rw [if_pos h]
    simp [List.lookup, h]
  · rw [if_neg h]
    have hb : (k == k1) = false := beq_eq_false_iff_ne.mpr h
    simp [List.lookup, hb]

theorem lookup_map_upd (d : List (String × ℕ)) (k k' : String) (v : ℕ) (hkk : k ≠ k') :
    List.lookup k (d.map (fun p => if p.1 = k' then (k', v) else p)) = List.lookup k d := by
  induction d with
  | nil => rfl
  | cons q d' ih =>
    obtain ⟨k1, v1⟩ := q
    simp only [List.map_cons]
    by_cases hq : k1 = k'
    · rw [show (if (k1, v1).1 = k' then (k', v) else (k1, v1)) = (k', v) from if_pos hq,
        lookup_cons, lookup_cons, ih, if_neg hkk, if_neg (fun he => hkk (he.trans hq))]
    · rw [show (if (k1, v1).1 = k' then (k', v) else (k1, v1)) = (k1, v1) from if_neg hq,
        lookup_cons, lookup_cons, ih]

theorem lookup_dictSet (d : List (String × ℕ)) (k k' : String) (v : ℕ) :
    List.lookup k (dictSet d k' v) = if k = k' then some v else List.lookup k d := by
  induction d with
  | nil =>
    unfold dictSet
    rw [if_neg (by simp), List.nil_append, lookup_cons]
  | cons q d' ih =>
    obtain ⟨k1, v1⟩ := q
    unfold dictSet at ih ⊢
    by_cases hq : k1 = k'
    · rw [if_pos (by simp [List.any_cons, hq])]
      simp only [List.map_cons]
      rw [show (if (k1, v1).1 = k' then (k', v) else (k1, v1)) = (k', v) from if_pos hq,
        lookup_cons]
      by_cases hk : k = k'
      · rw [if_pos hk, if_pos hk]
      · rw [if_neg hk, if_neg hk, lookup_map_upd d' k k' v hk, lookup_cons,
          if_neg (fun he => hk (he.trans hq))]
    · by_cases hany : d'.any (fun p => p.1 = k') = true
      · rw [if_pos (by simp [List.any_cons, hany])]
        simp only [List.map_cons]
        rw [show (if (k1, v1).1 = k' then (k', v) else (k1, v1)) = (k1, v1) from if_neg hq,
          lookup_cons]
        rw [if_pos hany] at ih
        by_cases hk : k = k1
        · rw [if_pos hk, if_neg (fun he => hq (hk.symm.trans he)), lookup_cons, if_pos hk]
        · rw [if_neg hk, ih]
          by_cases hk2 : k = k'
          · rw [if_pos hk2, if_pos hk2]
          · rw [if_neg hk2, if_neg hk2, lookup_cons, if_neg hk]
      · rw [if_neg (by simp [List.any_cons, hq, hany])]
        rw [if_neg hany] at ih
        simp only [List.cons_append]
        rw [lookup_cons]
        by_cases hk : k = k1
        · rw [if_pos hk, if_neg (fun he => hq (hk.symm.trans he)), lookup_cons, if_pos hk]
        · rw [if_neg hk, ih]
          by_cases hk2 : k = k'
          · rw [if_pos hk2, if_pos hk2]
          · rw [if_neg hk2, if_neg hk2, lookup_cons, if_neg hk]

theorem rcFindSelf : ∀ kv ∈ requiredColumns,
    requiredColumns.find? (fun x => x.1 = kv.1) = some kv := by
  decide

theorem rcUniqueCanon : ∀ kv₁ ∈ requiredColumns, ∀ kv₂ ∈ requiredColumns,
    kv₁.2 = kv₂.2 → kv₁ = kv₂ := by
  decide

theorem pass1_fold_lookup (kv : String × String) (hkv : kv ∈ requiredColumns) :
    ∀ (l : List (ℕ × Cell)) (d : List (String × ℕ)),
      List.lookup kv.2 (l.foldl (fun d ic =>
        match requiredColumns.find? (fun kv' => kv'.1 = trimLowerCell ic.2) with
        | some kv' => dictSet d kv'.2 ic.1
        | none => d) d) =
      l.foldl (fun acc ic => if trimLowerCell ic.2 = kv.1 then some ic.1 else acc)
        (List.lookup kv.2 d) := by
  intro l
  induction l with
  | nil => intro d; rfl
  | cons ic l' ih =>
    intro d
    rw [List.foldl_cons, List.foldl_cons, ih]
    congr 1
    rcases hfind : requiredColumns.find? (fun kv' => kv'.1 = trimLowerCell ic.2) with _ | kv'
    · have hne : ¬(trimLowerCell ic.2 = kv.1) := by
        intro hA
        rw [hA, rcFindSelf kv hkv] at hfind
        cases hfind
      rw [hfind, if_neg hne]
    · have hkv' : kv' ∈ requiredColumns := List.mem_of_find?_eq_some hfind
      have hp0 := List.find?_some hfind
      have hkv'p : kv'.1 = trimLowerCell ic.2 := of_decide_eq_true hp0
      rw [hfind, lookup_dictSet]
      by_cases hA : trimLowerCell ic.2 = kv.1
      · have hkk : kv' = kv := by
          have h2 : requiredColumns.find? (fun x => x.1 = kv.1) = some kv' := by
            rw [← hA]
            exact hfind
          rw [rcFindSelf kv hkv] at h2
          exact (Option.some.inj h2).symm
        rw [if_pos hA, if_pos (by rw [hkk])]
      · have hne2 : kv.2 ≠ kv'.2 := by
          intro he
          have heq : kv = kv' := rcUniqueCanon kv hkv kv' hkv' he
          rw [← heq] at hkv'p
          exact hA hkv'p.symm
        rw [if_neg hne2, if_neg hA]

/-- C4 counterexample: with header cells `["money in", "money in"]` the exact
pass maps `Money In` to index 1 (the last equal cell), not the first index 0,
and with `["money in", "xx money in yy"]` the substring pass overwrites the
exact-pass mapping `Money In -> 0` to 1. -/
theorem c4_counterexample :
    List.lookup "Money In" (columnIndices [Cell.str "money in", Cell.str "money in"]) =
      some 1 ∧
    mapperPass1 [Cell.str "money in", Cell.str "money in"] = [("Money In", 1)] ∧
    mapperPass1 [Cell.str "money in", Cell.str "xx money in yy"] = [("Money In", 0)] ∧
    List.lookup "Money In"
      (columnIndices [Cell.str "money in", Cell.str "xx money in yy"]) = some 1 := by
  decide

/-- C4 (amended): in the exact pass each match overwrites the previous one, so
a canonical name maps to the index of the LAST cell equal to its synonym; and
the substring pass, when it runs, re-scans every non-null cell (mapped or
not) and can overwrite mappings established by the exact pass, as the second
conjunct shows on a concrete header. -/
theorem c4_amended_exact_last_wins :
    (∀ (header : List Cell) (kv : String × String), kv ∈ requiredColumns →
      List.lookup kv.2 (mapperPass1 header) = lastIdxWith kv.1 header) ∧
    List.lookup "Money In"
      (columnIndices [Cell.str "money in", Cell.str "xx money in yy"]) = some 1 := by
  constructor
  · intro header kv hkv
    unfold mapperPass1 lastIdxWith
    exact pass1_fold_lookup kv hkv header.enum []
  · decide

/-- Witness for the amended C4: the duplicate-synonym header maps `Money In`
to the last index 1. -/
theorem c4_amended_exact_last_wins_witness :
    List.lookup "Money In" (mapperPass1 [Cell.str "money in", Cell.str "money in"]) =
      lastIdxWith "money in" [Cell.str "money in", Cell.str "money in"] ∧
    lastIdxWith "money in" [Cell.str "money in", Cell.str "money in"] = some 1 :=
  ⟨c4_amended_exact_last_wins.1 [Cell.str "money in", Cell.str "money in"]
    ("money in", "Money In") (by decide), by decide⟩

-- ### Closing-balance provenance lemmas

theorem list_enum_getD (row : List Cell) (p : ℕ × Cell) (hp : p ∈ row.enum) :
    row.getD p.1 Cell.na = p.2 := by
  obtain ⟨i, a⟩ := p
  rw [List.mk_mem_enum_iff_getElem?] at hp
  rw [List.getD_eq_getElem?_getD, hp]
  rfl

theorem windowFirstAux_spec (row : List Cell) :
    ∀ (fuel k0 : ℕ) (v : String), windowFirstAux row k0 fuel = some v →
      ∃ k, k0 ≤ k ∧ k < k0 + fuel ∧
        notnaB (row.getD k Cell.na) = true ∧ balMoneyishCell (row.getD k Cell.na) = true ∧
        v = cellStr (row.getD k Cell.na) ∧
        (∀ k', k0 ≤ k' → k' < k →
          ¬(notnaB (row.getD k' Cell.na) = true ∧
            balMoneyishCell (row.getD k' Cell.na) = true)) := by
  intro fuel
  induction fuel with
  | zero => intro k0 v h; cases h
  | succ f ih =>
    intro k0 v h
    unfold windowFirstAux at h
    by_cases hc : (notnaB (row.getD k0 Cell.na) && balMoneyishCell (row.getD k0 Cell.na)) = true
    · rw [if_pos hc] at h
      obtain ⟨hn, hm⟩ := bool_and_elim hc
      refine ⟨k0, Nat.le_refl k0, by omega, hn, hm, (Option.some.inj h).symm, ?_⟩
      intro k' h1 h2
      omega
    · rw [if_neg hc] at h
      obtain ⟨k, hk1, hk2, hn, hm, hv, hfirst⟩ := ih (k0 + 1) v h
      refine ⟨k, by omega, by omega, hn, hm, hv, ?_⟩
      intro k' h1 h2
      by_cases hk' : k' = k0
      · subst hk'
        intro hand
        exact hc (by rw [hand.1, hand.2]; rfl)
      · exact hfirst k' (by omega) h2

theorem windowFirst_spec (row : List Cell) (j : ℕ) (v : String)
    (h : windowFirst row j = some v) :
    ∃ k, j < k ∧ k < min (j + 3) row.length ∧
      notnaB (row.getD k Cell.na) = true ∧ balMoneyishCell (row.getD k Cell.na) = true ∧
      v = cellStr (row.getD k Cell.na) ∧
      (∀ k', j < k' → k' < k →
        ¬(notnaB (row.getD k' Cell.na) = true ∧
          balMoneyishCell (row.getD k' Cell.na) = true)) := by
  unfold windowFirst at h
  obtain ⟨k, hk1, hk2, hn, hm, hv, hfirst⟩ := windowFirstAux_spec row _ _ v h
  refine ⟨k, by omega, by omega, hn, hm, hv, fun k' h1 h2 => hfirst k' (by omega) h2⟩

theorem balRowScan_spec (row : List Cell) :
    ∀ (l : List (ℕ × Cell)) (acc : Option String),
      (∀ p ∈ l, row.getD p.1 Cell.na = p.2) →
      ∀ v, (l.foldl (fun a jc =>
          if balTrigCell jc.2 then
            match windowFirst row jc.1 with
            | some v => some v
            | none => a
          else a) acc) = some v →
        acc = some v ∨ closingWitness row v := by
  intro l
  induction l with
  | nil => intro acc _ v h; exact Or.inl h
  | cons jc l' ih =>
    intro acc hmem v h
    rw [List.foldl_cons] at h
    have hjc : row.getD jc.1 Cell.na = jc.2 := hmem jc (List.mem_cons_self jc l')
    have hmem' : ∀ p ∈ l', row.getD p.1 Cell.na = p.2 :=
      fun p hp => hmem p (List.mem_cons_of_mem jc hp)
    rcases ih _ hmem' v h with hacc | hw
    · by_cases ht : balTrigCell jc.2 = true
      · rw [if_pos ht] at hacc
        rcases hwf : windowFirst row jc.1 with _ | w
        · rw [hwf] at hacc
          exact Or.inl hacc
        · rw [hwf] at hacc
          right
          obtain ⟨k, hk1, hk2, hn, hm, hv, hfirst⟩ := windowFirst_spec row jc.1 w hwf
          exact ⟨jc.1, k, by rw [hjc]; exact ht, hk1, hk2, hn, hm,
            by rw [← Option.some.inj hacc]; exact hv, hfirst⟩
      · rw [if_neg ht] at hacc
        exact Or.inl hacc
    · exact Or.inr hw

theorem metaStep_closing (grid : List (List Cell)) (h : ℕ) (m : MetaAcc) (i : ℕ) :
    (metaStep grid h m i).closing =
      if substrB "balance" (rowTextLower (grid.getD i [])) = true ∨
          substrB "closing" (rowTextLower (grid.getD i [])) = true then
        balRowScan m.closing (grid.getD i [])
      else m.closing := by
  simp only [metaStep]
  split_ifs <;> rfl

theorem fold_meta_closing (grid : List (List Cell)) (h : ℕ) :
    ∀ (l : List ℕ) (m : MetaAcc),
      (∀ v, m.closing = some v →
        ∃ i, i < min h grid.length ∧ closingWitness (grid.getD i []) v) →
      (∀ i ∈ l, i < min h grid.length) →
      ∀ v, (l.foldl (metaStep grid h) m).closing = some v →
        ∃ i, i < min h grid.length ∧ closingWitness (grid.getD i []) v := by
  intro l
  induction l with
  | nil => intro m hm _ v hv; exact hm v hv
  | cons i l' ih =>
    intro m hm hl v hv
    rw [List.foldl_cons] at hv
    refine ih (metaStep grid h m i) ?_ (fun j hj => hl j (List.mem_cons_of_mem i hj)) v hv
    intro w hw
    rw [metaStep_closing] at hw
    by_cases hcond : substrB "balance" (rowTextLower (grid.getD i [])) = true ∨
        substrB "closing" (rowTextLower (grid.getD i [])) = true
    · rw [if_pos hcond] at hw
      unfold balRowScan at hw
      rcases balRowScan_spec (grid.getD i []) ((grid.getD i []).enum) m.closing
          (fun p hp => list_enum_getD _ p hp) w hw with hacc | hwit
      · exact hm w hacc
      · exact ⟨i, hl i (List.mem_cons_self i l'), hwit⟩
    · rw [if_neg hcond] at hw
      exact hm w hw

/-- C8 counterexample: the cell `xnx` after a `balance` cell is taken as the
closing balance (the code accepts any cell containing the letter `n`), yet it
neither contains a currency symbol nor is numeric after stripping
separators — the claimed monetary-looking condition fails. -/
theorem c8_counterexample :
    find_header_row [[Cell.str "balance", Cell.str "xnx"], [Cell.str "date/time", Cell.na]] =
      some 1 ∧
    (extractMeta [[Cell.str "balance", Cell.str "xnx"], [Cell.str "date/time", Cell.na]]
      1).closing = some "xnx" ∧
    specMonetaryStr "xnx" = false := by
  decide

/-- C8 (amended): whenever the metadata extractor sets `closingBalance`, the
value is the text of one of the two cells immediately following a
`balance`/`closing` cell in a row above the header row, the first cell in
that window that is non-null and money-ish — where money-ish means: contains
`₦`, or contains the letter `n` case-insensitively, or is all digits after
stripping commas and dots. -/
theorem c8_amended_closing_from_window (grid : List (List Cell)) (h : ℕ) (v : String)
    (hc : (extractMeta grid h).closing = some v) :
    ∃ i, i < min h grid.length ∧ closingWitness (grid.getD i []) v := by
  unfold extractMeta at hc
  exact fold_meta_closing grid h (List.range (min h grid.length)) ⟨none, none, none, none⟩
    (fun w hw => by cases hw) (fun i hi => List.mem_range.mp hi) v hc

/-- Witness for the amended C8 at the counterexample grid. -/
theorem c8_amended_closing_from_window_witness :
    ∃ i, i < min 1 ([[Cell.str "balance", Cell.str "xnx"],
        [Cell.str "date/time", Cell.na]] : List (List Cell)).length ∧
      closingWitness ([[Cell.str "balance", Cell.str "xnx"],
        [Cell.str "date/time", Cell.na]].getD i []) "xnx" :=
  c8_amended_closing_from_window _ 1 "xnx" (by decide)

-- ### Object-store lemmas

theorem hget_halloc_new (s : List DF) (d : DF) : hget (halloc s d).1 (halloc s d).2 = d := by
  simp [hget, halloc, List.getD_eq_getElem?_getD, List.getElem?_append_right (Nat.le_refl s.length)]

theorem hget_halloc_old (s : List DF) (d : DF) (i : ℕ) (hi : i < s.length) :
    hget (halloc s d).1 i = hget s i := by
  simp [hget, halloc, List.getD_eq_getElem?_getD, List.getElem?_append_left hi]

theorem halloc_len (s : List DF) (d : DF) : (halloc s d).1.length = s.length + 1 := by
  simp [halloc]

theorem hget_hset_same (s : List DF) (r : ℕ) (d : DF) (hr : r < s.length) :
    hget (hset s r d) r = d :=
  list_getD_set_self s r d _ hr

theorem hget_hset_other (s : List DF) (r : ℕ) (d : DF) (i : ℕ) (hne : r ≠ i) :
    hget (hset s r d) i = hget s i := by
  simp [hget, hset, List.getD_eq_getElem?_getD, List.getElem?_set_ne hne]

theorem hset_len (s : List DF) (r : ℕ) (d : DF) : (hset s r d).length = s.length := by
  simp [hset]

theorem moneyBlockHeap_spec (s : List DF) (r : ℕ) (hr : r < s.length)
    (col : String) (cleaner : Cell → Dec) :
    (∀ i, i ≠ r → hget (moneyBlockHeap s r col cleaner) i = hget s i) ∧
    hget (moneyBlockHeap s r col cleaner) r = cleanColWith (hget s r) col cleaner ∧
    (moneyBlockHeap s r col cleaner).length = s.length := by
  unfold moneyBlockHeap cleanColWith
  by_cases hcol : (hget s r).cols.contains col = true
  · rw [if_pos hcol, if_pos hcol]
    simp only []
    have l1 : (hset s r ((hget s r).mapCol col (replaceCellVal ""))).length = s.length :=
      hset_len ..
    have h1 : hget (hset s r ((hget s r).mapCol col (replaceCellVal ""))) r =
        (hget s r).mapCol col (replaceCellVal "") := hget_hset_same _ _ _ hr
    rw [h1]
    have l2 := hset_len (hset s r ((hget s r).mapCol col (replaceCellVal ""))) r
      (((hget s r).mapCol col (replaceCellVal "")).mapCol col (replaceCellVal "nan"))
    have h2 : hget (hset (hset s r ((hget s r).mapCol col (replaceCellVal ""))) r
        (((hget s r).mapCol col (replaceCellVal "")).mapCol col (replaceCellVal "nan"))) r =
        ((hget s r).mapCol col (replaceCellVal "")).mapCol col (replaceCellVal "nan") :=
      hget_hset_same _ _ _ (by rw [l1]; exact hr)
    rw [h2]
    refine ⟨?_, ?_, ?_⟩
    · intro i hi
      rw [hget_hset_other _ _ _ _ (fun he => hi he.symm),
        hget_hset_other _ _ _ _ (fun he => hi he.symm),
        hget_hset_other _ _ _ _ (fun he => hi he.symm)]
    · exact hget_hset_same _ _ _ (by rw [l2, l1]; exact hr)
    · rw [hset_len, l2, l1]
  · rw [if_neg hcol, if_neg hcol]
    exact ⟨fun i _ => rfl, rfl, rfl⟩

theorem dateBlockHeap_spec (s : List DF) (r : ℕ) (hr : r < s.length) :
    (∀ i, i ≠ r → hget (dateBlockHeap s r) i = hget s i) ∧
    hget (dateBlockHeap s r) r = parse_dates (hget s r) ∧
    (dateBlockHeap s r).length = s.length := by
  unfold dateBlockHeap parse_dates
  by_cases hcol : (hget s r).cols.contains "Date/Time" = true
  · rw [if_pos hcol, if_pos hcol]
    simp only []
    have l1 : (hset s r ((hget s r).mapCol "Date/Time" dtAstypeCell)).length = s.length :=
      hset_len ..
    have h1 : hget (hset s r ((hget s r).mapCol "Date/Time" dtAstypeCell)) r =
        (hget s r).mapCol "Date/Time" dtAstypeCell := hget_hset_same _ _ _ hr
    rw [h1]
    have l2 := hset_len (hset s r ((hget s r).mapCol "Date/Time" dtAstypeCell)) r
      (((hget s r).mapCol "Date/Time" dtAstypeCell).mapCol "Date/Time" (replaceCellVal "nan"))
    have h2 : hget (hset (hset s r ((hget s r).mapCol "Date/Time" dtAstypeCell)) r
        (((hget s r).mapCol "Date/Time" dtAstypeCell).mapCol "Date/Time"
          (replaceCellVal "nan"))) r =
        ((hget s r).mapCol "Date/Time" dtAstypeCell).mapCol "Date/Time"
          (replaceCellVal "nan") := hget_hset_same _ _ _ (by rw [l1]; exact hr)
    rw [h2]
    have l3 := hset_len (hset (hset s r ((hget s r).mapCol "Date/Time" dtAstypeCell)) r
      (((hget s r).mapCol "Date/Time" dtAstypeCell).mapCol "Date/Time" (replaceCellVal "nan"))) r
      ((((hget s r).mapCol "Date/Time" dtAstypeCell).mapCol "Date/Time"
        (replaceCellVal "nan")).mapCol "Date/Time" (replaceCellVal ""))
    have h3 : hget (hset (hset (hset s r ((hget s r).mapCol "Date/Time" dtAstypeCell)) r
        (((hget s r).mapCol "Date/Time" dtAstypeCell).mapCol "Date/Time"
          (replaceCellVal "nan"))) r
        ((((hget s r).mapCol "Date/Time" dtAstypeCell).mapCol "Date/Time"
          (replaceCellVal "nan")).mapCol "Date/Time" (replaceCellVal ""))) r =
        (((hget s r).mapCol "Date/Time" dtAstypeCell).mapCol "Date/Time"
          (replaceCellVal "nan")).mapCol "Date/Time" (replaceCellVal "") :=
      hget_hset_same _ _ _ (by rw [l2, l1]; exact hr)
    rw [h3]
    refine ⟨?_, ?_, ?_⟩
    · intro i hi
      rw [hget_hset_other _ _ _ _ (fun he => hi he.symm),
        hget_hset_other _ _ _ _ (fun he => hi he.symm),
        hget_hset_other _ _ _ _ (fun he => hi he.symm),
        hget_hset_other _ _ _ _ (fun he => hi he.symm)]
    · exact hget_hset_same _ _ _ (by rw [l3, l2, l1]; exact hr)
    · rw [hset_len, l3, l2, l1]
  · rw [if_neg hcol, if_neg hcol]
    exact ⟨fun i _ => rfl, rfl, rfl⟩

theorem filterBlockHeap_spec (s : List DF) (r : ℕ) (hr : r < s.length) :
    (∀ i, i < s.length → i ≠ r → hget (filterBlockHeap s r).1 i = hget s i) ∧
    hget (filterBlockHeap s r).1 (filterBlockHeap s r).2 = filter_out_savings (hget s r) ∧
    r ≤ (filterBlockHeap s r).2 := by
  unfold filterBlockHeap filter_out_savings
  by_cases hcol : (hget s r).cols.contains "Description" = true
  · rw [if_pos hcol, if_pos hcol]
    simp only []
    have l1 : (hset s r ((hget s r).mapCol "Description" descFillCell)).length = s.length :=
      hset_len ..
    have h1 : hget (hset s r ((hget s r).mapCol "Description" descFillCell)) r =
        (hget s r).mapCol "Description" descFillCell := hget_hset_same _ _ _ hr
    rw [h1]
    have l2 := hset_len (hset s r ((hget s r).mapCol "Description" descFillCell)) r
      (((hget s r).mapCol "Description" descFillCell).mapCol "Description" descAstypeCell)
    have h2 : hget (hset (hset s r ((hget s r).mapCol "Description" descFillCell)) r
        (((hget s r).mapCol "Description" descFillCell).mapCol "Description"
          descAstypeCell)) r =
        ((hget s r).mapCol "Description" descFillCell).mapCol "Description" descAstypeCell :=
      hget_hset_same _ _ _ (by rw [l1]; exact hr)
    rw [h2]
    have l3 := hset_len (hset (hset s r ((hget s r).mapCol "Description" descFillCell)) r
      (((hget s r).mapCol "Description" descFillCell).mapCol "Description" descAstypeCell)) r
      ((((hget s r).mapCol "Description" descFillCell).mapCol "Description"
        descAstypeCell).mapCol "Description" descReplaceCell)
    have h3 : hget (hset (hset (hset s r ((hget s r).mapCol "Description" descFillCell)) r
        (((hget s r).mapCol "Description" descFillCell).mapCol "Description"
          descAstypeCell)) r
        ((((hget s r).mapCol "Description" descFillCell).mapCol "Description"
          descAstypeCell).mapCol "Description" descReplaceCell)) r =
        (((hget s r).mapCol "Description" descFillCell).mapCol "Description"
          descAstypeCell).mapCol "Description" descReplaceCell :=
      hget_hset_same _ _ _ (by rw [l2, l1]; exact hr)
    rw [h3]
    refine ⟨?_, ?_, ?_⟩
    · intro i hi hir
      rw [hget_halloc_old _ _ _ (by rw [l3, l2, l1]; exact hi),
        hget_hset_other _ _ _ _ (fun he => hir he.symm),
        hget_hset_other _ _ _ _ (fun he => hir he.symm),
        hget_hset_other _ _ _ _ (fun he => hir he.symm)]
    · rw [hget_halloc_new]
    · simp only [halloc]
      rw [l3, l2, l1]
      omega
  · rw [if_neg hcol, if_neg hcol]
    exact ⟨fun i _ _ => rfl, rfl, Nat.le_refl r⟩

/-- C10: the three downstream transforms are pure with respect to their
argument: run over the object store, each leaves every pre-existing object —
in particular the input frame — unchanged, returns a freshly allocated
object (reference at or past the old store size), and the returned object is
the corresponding pure function of the input frame. -/
theorem c10_transforms_pure (s : List DF) (r : ℕ) (_hr : r < s.length) :
    ((∀ i, i < s.length → hget (clean_money_columns_heap s r).1 i = hget s i) ∧
      s.length ≤ (clean_money_columns_heap s r).2 ∧
      hget (clean_money_columns_heap s r).1 (clean_money_columns_heap s r).2 =
        clean_money_columns (hget s r)) ∧
    ((∀ i, i < s.length → hget (parse_dates_heap s r).1 i = hget s i) ∧
      s.length ≤ (parse_dates_heap s r).2 ∧
      hget (parse_dates_heap s r).1 (parse_dates_heap s r).2 = parse_dates (hget s r)) ∧
    ((∀ i, i < s.length → hget (filter_out_savings_heap s r).1 i = hget s i) ∧
      s.length ≤ (filter_out_savings_heap s r).2 ∧
      hget (filter_out_savings_heap s r).1 (filter_out_savings_heap s r).2 =
        filter_out_savings (hget s r)) := by
  have hpd : hget (halloc s (hget s r)).1 (halloc s (hget s r)).2 = hget s r :=
    hget_halloc_new s _
  have hrlt : (halloc s (hget s r)).2 < (halloc s (hget s r)).1.length := by
    rw [halloc_len]
    show s.length < s.length + 1
    omega
  refine ⟨?_, ?_, ?_⟩
  · unfold clean_money_columns_heap
    simp only []
    obtain ⟨f1, v1, l1⟩ := moneyBlockHeap_spec (halloc s (hget s r)).1
      (halloc s (hget s r)).2 hrlt "Money In" clean_money_in
    obtain ⟨f2, v2, l2⟩ := moneyBlockHeap_spec
      (moneyBlockHeap (halloc s (hget s r)).1 (halloc s (hget s r)).2 "Money In" clean_money_in)
      (halloc s (hget s r)).2 (by rw [l1]; exact hrlt) "Money out" clean_money_out
    obtain ⟨f3, v3, l3⟩ := moneyBlockHeap_spec
      (moneyBlockHeap (moneyBlockHeap (halloc s (hget s r)).1 (halloc s (hget s r)).2
        "Money In" clean_money_in) (halloc s (hget s r)).2 "Money out" clean_money_out)
      (halloc s (hget s r)).2 (by rw [l2, l1]; exact hrlt) "Balance" clean_balance
    refine ⟨?_, ?_, ?_⟩
    · intro i hi
      have hir : i ≠ (halloc s (hget s r)).2 := by
        show i ≠ s.length
        omega
      rw [f3 i hir, f2 i hir, f1 i hir, hget_halloc_old s _ i hi]
    · exact Nat.le_refl s.length
    · rw [v3, v2, v1, hpd]
      rfl
  · unfold parse_dates_heap
    simp only []
    obtain ⟨f1, v1, l1⟩ := dateBlockHeap_spec (halloc s (hget s r)).1
      (halloc s (hget s r)).2 hrlt
    refine ⟨?_, ?_, ?_⟩
    · intro i hi
      have hir : i ≠ (halloc s (hget s r)).2 := by
        show i ≠ s.length
        omega
      rw [f1 i hir, hget_halloc_old s _ i hi]
    · exact Nat.le_refl s.length
    · rw [v1, hpd]
  · unfold filter_out_savings_heap
    simp only []
    obtain ⟨ff, fv, fr⟩ := filterBlockHeap_spec (halloc s (hget s r)).1
      (halloc s (hget s r)).2 hrlt
    refine ⟨?_, ?_, ?_⟩
    · intro i hi
      have hil : i < (halloc s (hget s r)).1.length := by
        rw [halloc_len]
        omega
      have hir : i ≠ (halloc s (hget s r)).2 := by
        show i ≠ s.length
        omega
      rw [ff i hil hir, hget_halloc_old s _ i hi]
    · exact fr
    · rw [fv, hpd]

/-- Witness for C10 at a one-frame store holding a tiny table. -/
theorem c10_transforms_pure_witness :
    hget (clean_money_columns_heap [⟨["Money In"], [[Cell.str "₦5"]]⟩] 0).1
        (clean_money_columns_heap [⟨["Money In"], [[Cell.str "₦5"]]⟩] 0).2 =
      clean_money_columns (hget [⟨["Money In"], [[Cell.str "₦5"]]⟩] 0) :=
  (c10_transforms_pure [⟨["Money In"], [[Cell.str "₦5"]]⟩] 0 (by decide)).1.2.2

-- ### More list helpers (for the Table Builder)

theorem getD_map_lt {α β : Type} (l : List α) (f : α → β) (k : ℕ) (hk : k < l.length)
    (d : β) (d' : α) : (l.map f).getD k d = f (l.getD k d') := by
  rw [List.getD_eq_getElem?_getD, List.getElem?_map, List.getD_eq_getElem?_getD,
    List.getElem?_eq_getElem hk]
  rfl

theorem getD_drop {α : Type} (l : List α) (n j : ℕ) (d : α) :
    (l.drop n).getD j d = l.getD (n + j) d := by
  rw [List.getD_eq_getElem?_getD, List.getD_eq_getElem?_getD, List.getElem?_drop]

theorem getD_append_left {α : Type} (l₁ l₂ : List α) (i : ℕ) (hi : i < l₁.length) (d : α) :
    (l₁ ++ l₂).getD i d = l₁.getD i d := by
  rw [List.getD_eq_getElem?_getD, List.getD_eq_getElem?_getD, List.getElem?_append_left hi]

theorem getD_mem {α : Type} (l : List α) (i : ℕ) (hi : i < l.length) (d : α) :
    l.getD i d ∈ l := by
  rw [List.getD_eq_getElem?_getD, List.getElem?_eq_getElem hi]
  exact List.getElem_mem hi

theorem list_enum_lt (row : List Cell) (p : ℕ × Cell) (hp : p ∈ row.enum) :
    p.1 < row.length := by
  obtain ⟨i, a⟩ := p
  rw [List.mk_mem_enum_iff_getElem?] at hp
  exact (List.getElem?_eq_some.mp hp).1

theorem findIdx_spec (l : List String) (c : String) :
    (l.findIdx (fun x => x = c) = l.length ∧ ∀ q, q < l.length → l.getD q "" ≠ c) ∨
    (l.findIdx (fun x => x = c) < l.length ∧
      l.getD (l.findIdx (fun x => x = c)) "" = c ∧
      ∀ q, q < l.findIdx (fun x => x = c) → l.getD q "" ≠ c) := by
  induction l with
  | nil => exact Or.inl ⟨rfl, fun q hq => absurd hq (by simp)⟩
  | cons x xs ih =>
    by_cases hx : x = c
    · right
      have hfi : (x :: xs).findIdx (fun y => y = c) = 0 := by
        rw [List.findIdx_cons]
        simp [hx]
      rw [hfi]
      exact ⟨by simp, by rw [List.getD_cons_zero]; exact hx, fun q hq => absurd hq (by omega)⟩
    · have hfi : (x :: xs).findIdx (fun y => y = c) = xs.findIdx (fun y => y = c) + 1 := by
        rw [List.findIdx_cons]
        simp [hx]
      rw [hfi]
      rcases ih with ⟨h1, h2⟩ | ⟨h1, h2, h3⟩
      · left
        refine ⟨by simp [h1], ?_⟩
        intro q hq
        cases q with
        | zero => rw [List.getD_cons_zero]; exact hx
        | succ q' => rw [List.getD_cons_succ]; exact h2 q' (by simpa using hq)
      · right
        refine ⟨by simpa using h1, by rw [List.getD_cons_succ]; exact h2, ?_⟩
        intro q hq
        cases q with
        | zero => rw [List.getD_cons_zero]; exact hx
        | succ q' => rw [List.getD_cons_succ]; exact h3 q' (by omega)

theorem findIdx_first (l : List String) (c : String) (p : ℕ) (hp : p < l.length)
    (hc : l.getD p "" = c) (hfirst : ∀ q, q < p → l.getD q "" ≠ c) :
    l.findIdx (fun x => x = c) = p := by
  rcases findIdx_spec l c with ⟨h1, h2⟩ | ⟨h1, h2, h3⟩
  · exact absurd hc (h2 p hp)
  · rcases Nat.lt_trichotomy (l.findIdx (fun x => x = c)) p with h | h | h
    · exact absurd h2 (hfirst _ h)
    · exact h
    · exact absurd hc (h3 p h)

theorem findIdx_lower (l : List String) (c : String) (w : ℕ)
    (hfirst : ∀ q, q < w → l.getD q "" ≠ c) (hw : w ≤ l.length) :
    w ≤ l.findIdx (fun x => x = c) := by
  rcases findIdx_spec l c with ⟨h1, _⟩ | ⟨h1, h2, _⟩
  · omega
  · by_contra hlt
    exact hfirst _ (by omega) h2

theorem getD_pad_na (dataRow : List Cell) (m q : ℕ) (hq : dataRow.length ≤ q) :
    (dataRow ++ List.replicate m Cell.na).getD q Cell.na = Cell.na := by
  rw [List.getD_eq_getElem?_getD, List.getElem?_append_right hq]
  rcases hlt : (List.replicate m Cell.na)[q - dataRow.length]? with _ | v
  · rfl
  · have := List.getElem?_mem hlt
    rw [List.eq_of_mem_replicate this]
    rfl

-- ### Column mapper dict invariants

theorem foldl_preserve_mem {α β : Type} (P : β → Prop) (step : β → α → β) :
    ∀ l : List α, (∀ b, ∀ a ∈ l, P b → P (step b a)) → ∀ b, P b → P (l.foldl step b) := by
  intro l
  induction l with
  | nil => intro _ b hb; exact hb
  | cons x xs ih =>
    intro hstep b hb
    rw [List.foldl_cons]
    exact ih (fun b' a ha hb' => hstep b' a (List.mem_cons_of_mem x ha) hb') _
      (hstep b x (List.mem_cons_self x xs) hb)

theorem rcFindSubSelf : ∀ kv ∈ requiredColumns,
    requiredColumns.find? (fun x => substrB x.1 kv.1) = some kv := by
  decide

theorem rcNotNan : ∀ kv ∈ requiredColumns, kv.1 ≠ "nan" := by
  decide

theorem exact_to_sub (c : Cell) (kv : String × String)
    (h : requiredColumns.find? (fun x => x.1 = trimLowerCell c) = some kv) :
    subCanon c = some kv.2 := by
  have hkv : kv ∈ requiredColumns := List.mem_of_find?_eq_some h
  have hp := List.find?_some h
  have heq : kv.1 = trimLowerCell c := of_decide_eq_true hp
  have hnn : notnaB c = true := by
    cases c with
    | na =>
      exfalso
      have hna : trimLowerCell Cell.na = "nan" := by decide
      exact rcNotNan kv hkv (heq.trans hna)
    | str s => rfl
    | num d => rfl
    | dt t => rfl
  unfold subCanon
  rw [if_pos hnn, ← heq, rcFindSubSelf kv hkv]
  rfl

theorem dictInv_dictSet (header : List Cell) (d : List (String × ℕ)) (n : String) (i : ℕ)
    (hd : dictInv header d) (hn : subCanon (header.getD i Cell.na) = some n)
    (hi : i < header.length) : dictInv header (dictSet d n i) := by
  intro p hp
  unfold dictSet at hp
  split at hp
  · obtain ⟨q, hq, he⟩ := List.mem_map.mp hp
    by_cases hqn : q.1 = n
    · rw [if_pos hqn] at he
      rw [← he]
      exact ⟨hn, hi⟩
    · rw [if_neg hqn] at he
      rw [← he]
      exact hd q hq
  · rcases List.mem_append.mp hp with h1 | h2
    · exact hd p h1
    · rw [List.mem_singleton.mp h2]
      exact ⟨hn, hi⟩

theorem keysND_dictSet (d : List (String × ℕ)) (k : String) (v : ℕ)
    (h : (d.map (fun p => p.1)).Nodup) : ((dictSet d k v).map (fun p => p.1)).Nodup := by
  unfold dictSet
  by_cases hany : d.any (fun p => p.1 = k) = true
  · rw [if_pos hany]
    have hkeys : (d.map (fun p => if p.1 = k then (k, v) else p)).map (fun p => p.1) =
        d.map (fun p => p.1) := by
      rw [List.map_map]
      apply List.map_congr_left
      intro q _
      by_cases hq : q.1 = k
      · simp [Function.comp, hq]
      · simp [Function.comp, hq]
    rw [hkeys]
    exact h
  · rw [if_neg hany]
    have hk : k ∉ d.map (fun p => p.1) := by
      intro hmem
      obtain ⟨q, hq, he⟩ := List.mem_map.mp hmem
      exact hany (List.any_eq_true.mpr ⟨q, hq, by simp [he]⟩)
    rw [List.map_append]
    refine List.Nodup.append h (List.nodup_singleton k) ?_
    intro a ha hb
    rw [List.mem_singleton.mp hb] at ha
    exact hk ha

theorem columnIndices_inv (header : List Cell) :
    dictInv header (columnIndices header) ∧
    ((columnIndices header).map (fun p => p.1)).Nodup := by
  have henum : ∀ p ∈ header.enum, header.getD p.1 Cell.na = p.2 ∧ p.1 < header.length :=
    fun p hp => ⟨list_enum_getD header p hp, list_enum_lt header p hp⟩
  have hstep1 : ∀ d, ∀ ic ∈ header.enum,
      (dictInv header d ∧ (d.map (fun p => p.1)).Nodup) →
      (dictInv header (match requiredColumns.find? (fun kv => kv.1 = trimLowerCell ic.2) with
        | some kv => dictSet d kv.2 ic.1
        | none => d) ∧
      (((match requiredColumns.find? (fun kv => kv.1 = trimLowerCell ic.2) with
        | some kv => dictSet d kv.2 ic.1
        | none => d) : List (String × ℕ)).map (fun p => p.1)).Nodup) := by
    intro d ic hic hd
    rcases hfind : requiredColumns.find? (fun kv => kv.1 = trimLowerCell ic.2) with _ | kv
    · rw [hfind]
      exact hd
    · rw [hfind]
      obtain ⟨hgd, hlt⟩ := henum ic hic
      refine ⟨dictInv_dictSet header d kv.2 ic.1 hd.1 ?_ hlt, keysND_dictSet d kv.2 ic.1 hd.2⟩
      rw [hgd]
      exact exact_to_sub ic.2 kv hfind
  have hstep2 : ∀ d, ∀ ic ∈ header.enum,
      (dictInv header d ∧ (d.map (fun p => p.1)).Nodup) →
      (dictInv header (if notnaB ic.2 then
          match requiredColumns.find? (fun kv => substrB kv.1 (trimLowerCell ic.2)) with
          | some kv => dictSet d kv.2 ic.1
          | none => d
        else d) ∧
      (((if notnaB ic.2 then
          match requiredColumns.find? (fun kv => substrB kv.1 (trimLowerCell ic.2)) with
          | some kv => dictSet d kv.2 ic.1
          | none => d
        else d) : List (String × ℕ)).map (fun p => p.1)).Nodup) := by
    intro d ic hic hd
    by_cases hna : notnaB ic.2 = true
    · simp only [if_pos hna]
      rcases hfind : requiredColumns.find? (fun kv => substrB kv.1 (trimLowerCell ic.2))
        with _ | kv
      · rw [hfind]
        exact hd
      · rw [hfind]
        obtain ⟨hgd, hlt⟩ := henum ic hic
        refine ⟨dictInv_dictSet header d kv.2 ic.1 hd.1 ?_ hlt, keysND_dictSet d kv.2 ic.1 hd.2⟩
        rw [hgd]
        unfold subCanon
        rw [if_pos hna, hfind]
        rfl
    · simp only [if_neg hna]
      exact hd
  have hbase : dictInv header ([] : List (String × ℕ)) ∧
      (([] : List (String × ℕ)).map (fun p => p.1)).Nodup :=
    ⟨fun p hp => absurd hp (List.not_mem_nil p), List.nodup_nil⟩
  have hp1 : dictInv header (mapperPass1 header) ∧
      ((mapperPass1 header).map (fun p => p.1)).Nodup := by
    unfold mapperPass1
    exact foldl_preserve_mem _ _ header.enum hstep1 [] hbase
  unfold columnIndices
  by_cases hlen : (mapperPass1 header).length < requiredColumns.length
  · rw [if_pos hlen]
    unfold mapperPass2
    exact foldl_preserve_mem _ _ header.enum hstep2 (mapperPass1 header) hp1
  · rw [if_neg hlen]
    exact hp1

-- ### Lookup / membership links and locator bounds

theorem mem_of_lookup_eq_some (d : List (String × ℕ)) (c : String) (p : ℕ)
    (h : List.lookup c d = some p) : (c, p) ∈ d := by
  induction d with
  | nil => cases h
  | cons q d' ih =>
    obtain ⟨k1, v1⟩ := q
    rw [lookup_cons] at h
    by_cases hk : c = k1
    · rw [if_pos hk] at h
      rw [hk, ← Option.some.inj h]
      exact List.mem_cons_self _ _
    · rw [if_neg hk] at h
      exact List.mem_cons_of_mem _ (ih h)

theorem not_mem_of_lookup_eq_none (d : List (String × ℕ)) (c : String) (p : ℕ)
    (h : List.lookup c d = none) : (c, p) ∉ d := by
  induction d with
  | nil => exact List.not_mem_nil _
  | cons q d' ih =>
    obtain ⟨k1, v1⟩ := q
    rw [lookup_cons] at h
    intro hmem
    by_cases hk : c = k1
    · rw [if_pos hk] at h
      cases h
    · rw [if_neg hk] at h
      rcases List.mem_cons.mp hmem with he | hm
      · exact hk (congrArg Prod.fst he)
      · exact ih h hm

theorem keysND_unique (d : List (String × ℕ)) (hnd : (d.map (fun p => p.1)).Nodup)
    (c : String) (p p' : ℕ) (h1 : (c, p) ∈ d) (h2 : (c, p') ∈ d) : p = p' := by
  induction d with
  | nil => cases h1
  | cons q d' ih =>
    rw [List.map_cons, List.nodup_cons] at hnd
    rcases List.mem_cons.mp h1 with he1 | hm1 <;> rcases List.mem_cons.mp h2 with he2 | hm2
    · rw [← he2] at he1
      exact congrArg Prod.snd he1
    · exfalso
      apply hnd.1
      rw [← he1]
      exact List.mem_map.mpr ⟨(c, p'), hm2, rfl⟩
    · exfalso
      apply hnd.1
      rw [← he2]
      exact List.mem_map.mpr ⟨(c, p), hm1, rfl⟩
    · exact ih hnd.2 hm1 hm2

theorem scanExactOrCooc_lt : ∀ (l : List (List Cell)) (base i : ℕ),
    scanExactOrCooc l base = some i → i < base + l.length := by
  intro l
  induction l with
  | nil => intro base i h; cases h
  | cons row rest ih =>
    intro base i h
    unfold scanExactOrCooc at h
    by_cases hr : rowHitB row = true
    · rw [if_pos hr] at h
      have := Option.some.inj h
      simp
      omega
    · rw [if_neg hr] at h
      have := ih (base + 1) i h
      simp
      omega

theorem scanLoose_lt : ∀ (l : List (List Cell)) (base i : ℕ),
    scanLoose l base = some i → i < base + l.length := by
  intro l
  induction l with
  | nil => intro base i h; cases h
  | cons row rest ih =>
    intro base i h
    unfold scanLoose at h
    by_cases hr : looseHitB row = true
    · rw [if_pos hr] at h
      have := Option.some.inj h
      simp
      omega
    · rw [if_neg hr] at h
      have := ih (base + 1) i h
      simp
      omega

theorem posCheck_some (grid : List (List Cell)) (i : ℕ) (h : posCheck grid = some i) :
    i = 15 ∧ 15 < grid.length := by
  unfold posCheck at h
  split_ifs at h with h1 h2
  · exact ⟨(Option.some.inj h).symm, h1⟩

theorem find_header_row_lt (grid : List (List Cell)) (h : ℕ)
    (hloc : find_header_row grid = some h) : h < grid.length := by
  unfold find_header_row at hloc
  rcases hpos : posCheck grid with _ | i
  · rw [hpos] at hloc
    rcases hs : scanExactOrCooc grid 0 with _ | i2
    · rw [hs] at hloc
      have := scanLoose_lt grid 0 h hloc
      omega
    · rw [hs] at hloc
      have h2 := scanExactOrCooc_lt grid 0 i2 hs
      rw [Option.some.inj hloc] at h2
      omega
  · rw [hpos] at hloc
    obtain ⟨h15, hlen⟩ := posCheck_some grid i hpos
    rw [← Option.some.inj hloc, h15]
    exact hlen

-- ### addMissingCols characterization

theorem contains_append_one (cols : List String) (c x : String) (hx : x ≠ c) :
    (cols ++ [c]).contains x = cols.contains x := by
  by_cases hm : x ∈ cols
  · rw [show cols.contains x = true from List.elem_eq_true_of_mem hm,
      show (cols ++ [c]).contains x = true from
        List.elem_eq_true_of_mem (List.mem_append_left _ hm)]
  · have h1 : cols.contains x = false := by
      rw [Bool.eq_false_iff]
      intro hh
      exact hm (List.mem_of_elem_eq_true hh)
    have h2 : (cols ++ [c]).contains x = false := by
      rw [Bool.eq_false_iff]
      intro hh
      rcases List.mem_append.mp (List.mem_of_elem_eq_true hh) with hcase | hcase
      · exact hm hcase
      · exact hx (List.mem_singleton.mp hcase)
    rw [h1, h2]

theorem addMissing_fold_spec : ∀ (cs : List String), cs.Nodup →
    ∀ (cols : List String) (rows : List (List Cell)),
      (cs.foldl (fun d c => if d.cols.contains c then d
          else ⟨d.cols ++ [c], d.rows.map (fun r => r ++ [Cell.na])⟩)
        (⟨cols, rows⟩ : DF)) =
      ⟨cols ++ cs.filter (fun c => !(cols.contains c)),
       rows.map (fun r =>
         r ++ List.replicate (cs.filter (fun c => !(cols.contains c))).length Cell.na)⟩ := by
  intro cs
  induction cs with
  | nil =>
    intro _ cols rows
    simp
  | cons c cs' ih =>
    intro hnd cols rows
    rw [List.foldl_cons]
    have hnd' : cs'.Nodup := (List.nodup_cons.mp hnd).2
    have hcnotin : c ∉ cs' := (List.nodup_cons.mp hnd).1
    by_cases hc : cols.contains c = true
    · rw [if_pos (show (DF.mk cols rows).cols.contains c = true from hc)]
      rw [ih hnd' cols rows]
      have hfilter : (c :: cs').filter (fun x => !(cols.contains x)) =
          cs'.filter (fun x => !(cols.contains x)) := by
        rw [List.filter_cons]
        simp [List.mem_of_elem_eq_true hc]
      rw [hfilter]
    · have hcf : cols.contains c = false := Bool.eq_false_iff.mpr hc
      rw [if_neg (show ¬((DF.mk cols rows).cols.contains c = true) from hc)]
      rw [ih hnd' (cols ++ [c]) (rows.map (fun r => r ++ [Cell.na]))]
      have hfilter2 : cs'.filter (fun x => !((cols ++ [c]).contains x)) =
          cs'.filter (fun x => !(cols.contains x)) := by
        apply List.filter_congr
        intro x hx
        rw [contains_append_one cols c x (fun he => hcnotin (he ▸ hx))]
      have hfilter1 : (c :: cs').filter (fun x => !(cols.contains x)) =
          c :: cs'.filter (fun x => !(cols.contains x)) := by
        rw [List.filter_cons]
        simp [show c ∉ cols from fun hmem => hc (List.elem_eq_true_of_mem hmem)]
      rw [hfilter2, hfilter1]
      refine congrArg₂ DF.mk ?_ ?_
      · rw [List.append_assoc]
        rfl
      · rw [List.map_map]
        apply List.map_congr_left
        intro r _
        simp only [Function.comp, List.length_cons, List.replicate_succ, List.append_assoc]
        rfl

-- ### finalColumns and the Table Builder

theorem finalColumns_getD (d : List (String × ℕ)) (n q : ℕ) (hq : q < n) :
    (finalColumns d n).getD q "" =
      (match d.find? (fun e => e.2 = q) with
       | some e => e.1
       | none => "column_" ++ natStr q) := by
  unfold finalColumns
  rw [getD_map_lt _ _ q (by simpa using hq) "" 0]
  have hr : (List.range n).getD q 0 = q := by
    rw [List.getD_eq_getElem?_getD, List.getElem?_range hq]
    rfl
  rw [hr]

theorem column_name_ne (i : ℕ) (c : String) (hc : c ∈ requiredColumnsList) :
    "column_" ++ natStr i ≠ c := by
  intro he
  have h1 : ("column_" ++ natStr i).data.head? = some 'c' := by
    rw [String.data_append]
    rfl
  rw [he] at h1
  fin_cases hc <;> exact absurd h1 (by decide)

theorem finalColumns_length (d : List (String × ℕ)) (n : ℕ) :
    (finalColumns d n).length = n := by
  simp [finalColumns]

/-- C7: Table Builder output shape.  For every rectangular grid in which a
header row is located, the built table has exactly the seven canonical
columns in canonical order; its data rows are the grid rows after the header
row, in original order, none dropped; the cell of canonical column `k` in
output row `j` is the source cell at the mapped column index of source row
`h+1+j` when the canonical name is mapped, and null when it is not (so an
unmapped canonical column is all-null). -/
theorem c7_table_builder (grid : List (List Cell)) (h w : ℕ)
    (hloc : find_header_row grid = some h)
    (hrect : ∀ row ∈ grid, row.length = w) :
    (buildTable grid h).cols = requiredColumnsList ∧
    (buildTable grid h).rows.length = grid.length - (h + 1) ∧
    (∀ j, j < (buildTable grid h).rows.length →
      ((buildTable grid h).rows.getD j []).length = 7) ∧
    (∀ j, j < (buildTable grid h).rows.length → ∀ k, k < 7 →
      ((buildTable grid h).rows.getD j []).getD k Cell.na =
        (match List.lookup (requiredColumnsList.getD k "")
            (columnIndices (grid.getD h [])) with
         | some p => (grid.getD (h + 1 + j) []).getD p Cell.na
         | none => Cell.na)) := by
  have hhlt : h < grid.length := find_header_row_lt grid h hloc
  have hwh : (grid.getD h []).length = w := hrect _ (getD_mem grid h hhlt [])
  obtain ⟨hinv, hnd⟩ := columnIndices_inv (grid.getD h [])
  have hfclen : (finalColumns (columnIndices (grid.getD h [])) (grid.getD h []).length).length =
      (grid.getD h []).length := finalColumns_length _ _
  have hT : buildTable grid h =
      selectRequired
        ⟨finalColumns (columnIndices (grid.getD h [])) (grid.getD h []).length ++
           requiredColumnsList.filter (fun c =>
             !((finalColumns (columnIndices (grid.getD h [])) (grid.getD h []).length).contains c)),
         (grid.drop (h + 1)).map (fun r => r ++ List.replicate
           (requiredColumnsList.filter (fun c =>
             !((finalColumns (columnIndices (grid.getD h []))
                 (grid.getD h []).length).contains c))).length Cell.na)⟩ := by
    unfold buildTable addMissingCols
    simp only []
    rw [addMissing_fold_spec requiredColumnsList (by decide) _ _]
  refine ⟨?_, ?_, ?_, ?_⟩
  · rw [hT]
    rfl
  · rw [hT]
    simp [selectRequired]
  · intro j hj
    rw [hT] at hj ⊢
    simp only [selectRequired, List.length_map, List.length_drop] at hj
    simp only [selectRequired]
    rw [getD_map_lt _ _ j (by simp only [List.length_map, List.length_drop]; exact hj) [] []]
    simp only [List.length_map]
    rfl
  · intro j hj k hk
    rw [hT] at hj ⊢
    simp only [selectRequired, List.length_map, List.length_drop] at hj
    simp only [selectRequired, DF.colIdx]
    have hjlen : j < (grid.drop (h + 1)).length := by
      rw [List.length_drop]
      exact hj
    have hklt : k < requiredColumnsList.length := by
      simpa using hk
    rw [getD_map_lt _ _ j (by rw [List.length_map]; exact hjlen) [] []]
    rw [getD_map_lt requiredColumnsList _ k hklt Cell.na ""]
    rw [getD_map_lt _ _ j hjlen [] []]
    have hr0 : (grid.drop (h + 1)).getD j [] = grid.getD (h + 1 + j) [] :=
      getD_drop grid (h + 1) j []
    have hr0len : ((grid.drop (h + 1)).getD j []).length = w := by
      rw [hr0]
      exact hrect _ (getD_mem grid (h + 1 + j) (by
        rw [List.length_drop] at hjlen
        omega) [])
    rcases hlk : List.lookup (requiredColumnsList.getD k "")
        (columnIndices (grid.getD h [])) with _ | p
    · -- unmapped: every final-column position differs from the canonical name
      have hcKmem : requiredColumnsList.getD k "" ∈ requiredColumnsList :=
        getD_mem _ k hklt ""
      have hnofc : ∀ q, q < (grid.getD h []).length →
          (finalColumns (columnIndices (grid.getD h [])) (grid.getD h []).length).getD q "" ≠
            requiredColumnsList.getD k "" := by
        intro q hq he
        rw [finalColumns_getD _ _ q hq] at he
        rcases hfind : (columnIndices (grid.getD h [])).find? (fun e => e.2 = q) with _ | e
        · rw [hfind] at he
          exact column_name_ne q _ hcKmem he
        · rw [hfind] at he
          have hemem := List.mem_of_find?_eq_some hfind
          have hp0 := List.find?_some hfind
          have hep : e.2 = q := of_decide_eq_true hp0
          have : (requiredColumnsList.getD k "", q) ∈ columnIndices (grid.getD h []) := by
            have he2 : e = (requiredColumnsList.getD k "", q) := by
              rw [← he, ← hep]
            rw [← he2]
            exact hemem
          exact not_mem_of_lookup_eq_none _ _ q hlk this
      have hge : (finalColumns (columnIndices (grid.getD h []))
            (grid.getD h []).length).length ≤
          ((finalColumns (columnIndices (grid.getD h [])) (grid.getD h []).length ++
            requiredColumnsList.filter (fun c =>
              !((finalColumns (columnIndices (grid.getD h []))
                  (grid.getD h []).length).contains c))).findIdx
            (fun x => x = requiredColumnsList.getD k "")) := by
        apply findIdx_lower
        · intro q hq
          rw [hfclen] at hq
          rw [getD_append_left _ _ q (by rw [hfclen]; exact hq) ""]
          exact hnofc q hq
        · simp
      exact getD_pad_na _ _ _ (by omega)
    · -- mapped to p
      have hpd : (requiredColumnsList.getD k "", p) ∈ columnIndices (grid.getD h []) :=
        mem_of_lookup_eq_some _ _ p hlk
      obtain ⟨hsub, hplt⟩ := hinv _ hpd
      have hfp : (finalColumns (columnIndices (grid.getD h []))
          (grid.getD h []).length).getD p "" = requiredColumnsList.getD k "" := by
        rw [finalColumns_getD _ _ p hplt]
        rcases hfind : (columnIndices (grid.getD h [])).find? (fun e => e.2 = p) with _ | e
        · exfalso
          have := List.find?_eq_none.mp hfind _ hpd
          simp at this
        · rw [hfind]
          have hemem := List.mem_of_find?_eq_some hfind
          have hp0 := List.find?_some hfind
          have hep : e.2 = p := of_decide_eq_true hp0
          obtain ⟨hsub', _⟩ := hinv e hemem
          rw [hep] at hsub'
          exact Option.some.inj (hsub'.symm.trans hsub)
      have hfirst : ∀ q, q <  p →
          ((finalColumns (columnIndices (grid.getD h [])) (grid.getD h []).length ++
            requiredColumnsList.filter (fun c =>
              !((finalColumns (columnIndices (grid.getD h []))
                  (grid.getD h []).length).contains c))).getD q "") ≠
            requiredColumnsList.getD k "" := by
        intro q hq he
        rw [getD_append_left _ _ q (by rw [hfclen]; omega) ""] at he
        rw [finalColumns_getD _ _ q (by omega)] at he
        rcases hfind : (columnIndices (grid.getD h [])).find? (fun e => e.2 = q) with _ | e
        · rw [hfind] at he
          exact column_name_ne q _ (getD_mem _ k hklt "") he
        · rw [hfind] at he
          have hemem := List.mem_of_find?_eq_some hfind
          have hp0 := List.find?_some hfind
          have hep : e.2 = q := of_decide_eq_true hp0
          have hmem2 : (requiredColumnsList.getD k "", q) ∈
              columnIndices (grid.getD h []) := by
            have he2 : e = (requiredColumnsList.getD k "", q) := by
              rw [← he, ← hep]
            rw [← he2]
            exact hemem
          have := keysND_unique _ hnd _ p q hpd hmem2
          omega
      have hidx : ((finalColumns (columnIndices (grid.getD h [])) (grid.getD h []).length ++
            requiredColumnsList.filter (fun c =>
              !((finalColumns (columnIndices (grid.getD h []))
                  (grid.getD h []).length).contains c))).findIdx
            (fun x => x = requiredColumnsList.getD k "")) = p := by
        apply findIdx_first
        · rw [List.length_append, hfclen]
          omega
        · rw [getD_append_left _ _ p (by rw [hfclen]; exact hplt) ""]
          exact hfp
        · exact hfirst
      rw [hidx, getD_append_left _ _ p (by omega) Cell.na, hr0]

/-- Witness for C7 at a concrete two-row grid with a located header row. -/
theorem c7_table_builder_witness :
    (buildTable [[Cell.str "Date/Time", Cell.str "Money In"],
        [Cell.str "d1", Cell.num ⟨5, 0⟩]] 0).cols = requiredColumnsList :=
  (c7_table_builder [[Cell.str "Date/Time", Cell.str "Money In"],
        [Cell.str "d1", Cell.num ⟨5, 0⟩]] 0 2 (by decide) (by decide)).1
